import Mathlib

/-! The jsonApi service: the in-memory recipe store and its HTTP handlers.

A shallow embedding of `main.go`.

* Go's `int` is taken to be 64 bits wide: it is modelled by `Int`, and every
  arithmetic step the program performs on an `int` (`s.nextID++`, `cooked++`)
  is followed by the two's-complement wrap `wrapInt`.
* A Go slice is modelled by a `List`; `append` adds at the end.  The length of
  a Go slice is itself an `int`, so a slice never has more than `maxInt`
  elements: theorems that depend on a counter not wrapping carry that bound on
  the slice as a hypothesis.
* A method with a pointer receiver becomes a function that takes the state and
  returns its result together with the new state.  The `sync.RWMutex` of
  `MemoryStore` has no sequential content and is left out.
* `Store` is the interface of the same name; the handlers are written against
  it, as in the source.
* Of the Go standard library, `strings.TrimPrefix`, `strconv.Atoi` and the
  JSON decoder (`jsonDecode`: the scanner of `encoding/json` and the storing of
  an object in a `Recipe`) are modelled after their behaviour.  `addHandler`
  takes its decoder as an argument; the program passes `jsonDecode`.
-/

namespace JsonApi

/-! ## Machine integers and slices -/

/-- Largest value of a 64-bit Go `int`. -/
def maxInt : Int := 2 ^ 63 - 1

/-- Smallest value of a 64-bit Go `int`. -/
def minInt : Int := -(2 ^ 63)

/-- Two's-complement reduction of a mathematical integer to a 64-bit `int`. -/
def wrapInt (x : Int) : Int := (x + 2 ^ 63) % 2 ^ 64 - 2 ^ 63

/-- Go slices, `[]T`. -/
abbrev Slice (α : Type) : Type := List α

/-- Go's `len` on a slice, an `int`. -/
def len {α : Type} (xs : Slice α) : Int := (xs.length : Int)

/-! ## Data model -/

/-- The `Recipe` struct. -/
structure Recipe where
  ID : Int
  Name : String
  Cooked : Bool
deriving DecidableEq, Repr

/-- The zero value `Recipe{}`. -/
def Recipe.zero : Recipe := { ID := 0, Name := "", Cooked := false }

/-- The `ErrorResponse` struct. -/
structure ErrorResponse where
  Error : String
deriving DecidableEq, Repr

/-- The `Stats` struct. -/
structure Stats where
  Total : Int
  Cooked : Int
deriving DecidableEq, Repr

/-- The `MemoryStore` struct, without its lock. -/
structure MemoryStore where
  recipes : Slice Recipe
  nextID : Int
deriving DecidableEq, Repr

/-- The zero value `&MemoryStore{}`: no records, counter 0. -/
def MemoryStore.empty : MemoryStore := { recipes := [], nextID := 0 }

/-! ## MemoryStore methods -/

/-- Method `(*MemoryStore).Add`: `s.nextID++; r.ID = s.nextID;
s.recipes = append(s.recipes, r); return r`. -/
def MemoryStore.Add (s : MemoryStore) (r : Recipe) : Recipe × MemoryStore :=
  let nextID := wrapInt (s.nextID + 1)
  let r := { r with ID := nextID }
  (r, { recipes := s.recipes ++ [r], nextID := nextID })

/-- Method `(*MemoryStore).List`: a copy of `s.recipes`. -/
def MemoryStore.List (s : MemoryStore) : Slice Recipe × MemoryStore :=
  let copySlice := s.recipes
  (copySlice, s)

/-- The `for _, r := range s.recipes` loop of `Get`. -/
def getLoop : Slice Recipe → Int → Recipe × Bool
  | [], _ => (Recipe.zero, false)
  | r :: rest, id => if r.ID = id then (r, true) else getLoop rest id

/-- Method `(*MemoryStore).Get`. -/
def MemoryStore.Get (s : MemoryStore) (id : Int) : (Recipe × Bool) × MemoryStore :=
  (getLoop s.recipes id, s)

/-! ## Sequences of store calls -/

/-- One call on a store. -/
inductive Call where
  | Add (r : Recipe)
  | List
  | Get (id : Int)
deriving DecidableEq, Repr

/-- What a call returned. -/
inductive Ret where
  | Add (x : Recipe)
  | List (xs : Slice Recipe)
  | Get (x : Recipe) (ok : Bool)
deriving DecidableEq, Repr

/-- Perform one call on a `MemoryStore`. -/
def MemoryStore.call (s : MemoryStore) : Call → Ret × MemoryStore
  | Call.Add r => (Ret.Add (s.Add r).1, (s.Add r).2)
  | Call.List => (Ret.List (MemoryStore.List s).1, (MemoryStore.List s).2)
  | Call.Get id => (Ret.Get (s.Get id).1.1 (s.Get id).1.2, (s.Get id).2)

/-- Perform calls one after another; the returned values come in call order. -/
def MemoryStore.run (s : MemoryStore) : Slice Call → Slice Ret × MemoryStore
  | [] => ([], s)
  | c :: cs => ((s.call c).1 :: ((s.call c).2.run cs).1, ((s.call c).2.run cs).2)

/-- The records returned by the `Add` calls, in call order. -/
def added : Slice Ret → Slice Recipe
  | [] => []
  | Ret.Add x :: rest => x :: added rest
  | _ :: rest => added rest

/-- Number of `Add` calls in a sequence of calls. -/
def countAdds : Slice Call → Nat
  | [] => 0
  | Call.Add _ :: rest => countAdds rest + 1
  | _ :: rest => countAdds rest

/-! ## HTTP layer -/

/-- Constant `http.MethodGet`. -/
def MethodGet : String := "GET"

/-- Constant `http.MethodPost`. -/
def MethodPost : String := "POST"

/-- Constant `http.StatusOK`. -/
def StatusOK : Int := 200

/-- Constant `http.StatusBadRequest`. -/
def StatusBadRequest : Int := 400

/-- Constant `http.StatusNotFound`. -/
def StatusNotFound : Int := 404

/-- Constant `http.StatusMethodNotAllowed`. -/
def StatusMethodNotAllowed : Int := 405

/-- The parts of `*http.Request` that the handlers read. -/
structure Request where
  Method : String
  Path : String
  Body : String
deriving DecidableEq, Repr

/-- The value handed to `sendJSON` as `data interface{}`; the JSON encoder
writes it with the field names of the struct tags (`error`, `id`, `name`,
`cooked`, `total`). -/
inductive Data where
  | error (e : ErrorResponse)
  | recipe (r : Recipe)
  | recipes (rs : Slice Recipe)
  | stats (st : Stats)
deriving DecidableEq, Repr

/-- What a handler wrote to its `http.ResponseWriter`. -/
structure Response where
  contentType : String
  status : Int
  data : Data
deriving DecidableEq, Repr

/-- Function `sendJSON`: sets the content type, writes the status, encodes `data`. -/
def sendJSON (status : Int) (data : Data) : Response :=
  { contentType := "application/json", status := status, data := data }

/-- Function `sendError`. -/
def sendError (message : String) (status : Int) : Response :=
  sendJSON status (Data.error { Error := message })

/-- The `Store` interface, over the state `σ` of the implementation. -/
structure Store (σ : Type) where
  Add : σ → Recipe → Recipe × σ
  List : σ → Slice Recipe × σ
  Get : σ → Int → (Recipe × Bool) × σ

/-- The `MemoryStore` implementation as a `Store`. -/
def MemoryStore.store : Store MemoryStore :=
  { Add := MemoryStore.Add, List := MemoryStore.List, Get := MemoryStore.Get }

/-- A store that forwards every call to `st` and writes it down, the way the
`MockStore` of the tests records the calls it receives. -/
def Store.recording {σ : Type} (st : Store σ) : Store (σ × Slice Call) :=
  { Add := fun p r => ((st.Add p.1 r).1, ((st.Add p.1 r).2, p.2 ++ [Call.Add r]))
    List := fun p => ((st.List p.1).1, ((st.List p.1).2, p.2 ++ [Call.List]))
    Get := fun p id => ((st.Get p.1 id).1, ((st.Get p.1 id).2, p.2 ++ [Call.Get id])) }

/-- The `Handler` struct. -/
structure Handler (σ : Type) where
  store : Store σ

/-- What `json.NewDecoder(r.Body).Decode(&recipe)` leaves behind when `recipe`
starts as the zero value: the contents of `recipe` and the returned `err`
(`none` for `nil`). -/
structure Decoded where
  recipe : Recipe
  err : Option String
deriving DecidableEq, Repr

/-- The type of the decoder `addHandler` calls; the program uses `jsonDecode`. -/
abbrev Decoder : Type := String → Decoded

/-- Method `(*Handler).listHandler`. -/
def Handler.listHandler {σ : Type} (h : Handler σ) (s : σ) (r : Request) : Response × σ :=
  if r.Method ≠ MethodGet then
    (sendError "method not allowed" StatusMethodNotAllowed, s)
  else
    (sendJSON StatusOK (Data.recipes (h.store.List s).1), (h.store.List s).2)

/-- Method `(*Handler).addHandler`. -/
def Handler.addHandler {σ : Type} (decode : Decoder) (h : Handler σ) (s : σ) (r : Request) :
    Response × σ :=
  if r.Method ≠ MethodPost then
    (sendError "method not allowed" StatusMethodNotAllowed, s)
  else
    let d := decode r.Body
    if d.err ≠ none ∨ d.recipe.Name = "" then
      (sendError "invalid input" StatusBadRequest, s)
    else
      let result := h.store.Add s d.recipe
      (sendJSON StatusOK (Data.recipe result.1), result.2)

/-- The `for _, r := range list` loop of `statsHandler`, from the current
value of `cooked`. -/
def countCooked : Slice Recipe → Int → Int
  | [], cooked => cooked
  | r :: rest, cooked => countCooked rest (if r.Cooked then wrapInt (cooked + 1) else cooked)

/-- Method `(*Handler).statsHandler`. -/
def Handler.statsHandler {σ : Type} (h : Handler σ) (s : σ) (r : Request) : Response × σ :=
  if r.Method ≠ MethodGet then
    (sendError "method not allowed" StatusMethodNotAllowed, s)
  else
    let list := h.store.List s
    let cooked := countCooked list.1 0
    (sendJSON StatusOK (Data.stats { Total := len list.1, Cooked := cooked }), list.2)

/-! ## The item route -/

/-- Function `strings.HasPrefix` of the Go standard library. -/
def HasPrefix (s pre : String) : Bool :=
  pre.toList.isPrefixOf s.toList

/-- Function `strings.TrimPrefix` of the Go standard library: `s` without the
leading `pre` when `s` starts with it, and `s` itself otherwise. -/
def TrimPrefix (s pre : String) : String :=
  if HasPrefix s pre then String.mk (s.toList.drop pre.toList.length) else s

/-- The errors `strconv.ErrSyntax` and `strconv.ErrRange`. -/
inductive AtoiError where
  | ErrSyntax
  | ErrRange
deriving DecidableEq, Repr

/-- The digit loop of `strconv.ParseUint` in base 10 and 64 bits, from the
value `n` read so far: `ErrSyntax` at a byte that is not a decimal digit,
`ErrRange` as soon as the value no longer fits a `uint64`, whichever comes
first. -/
def parseDigits : List Char → Nat → Except AtoiError Nat
  | [], n => Except.ok n
  | c :: cs, n =>
    if c.isDigit = false then Except.error AtoiError.ErrSyntax
    else if 2 ^ 64 ≤ n * 10 + (c.toNat - 48) then Except.error AtoiError.ErrRange
    else parseDigits cs (n * 10 + (c.toNat - 48))

/-- Function `strconv.Atoi` of the Go standard library (`ParseInt(s, 10, 0)`
converted to `int`): an optional sign `+` or `-`, then one or more decimal
digits.  An empty string, a missing digit or any other byte gives `ErrSyntax`
with value 0; a value that does not fit a 64-bit `int` gives `ErrRange` with
the nearest bound.  The short-string path of `Atoi` returns the same. -/
def Atoi (s : String) : Int × Option AtoiError :=
  match s.toList with
  | [] => (0, some AtoiError.ErrSyntax)
  | c :: cs =>
    let neg : Bool := decide (c = '-')
    let digits := if c = '+' ∨ c = '-' then cs else c :: cs
    if digits.isEmpty then (0, some AtoiError.ErrSyntax)
    else
      match parseDigits digits 0 with
      | Except.error AtoiError.ErrSyntax => (0, some AtoiError.ErrSyntax)
      | Except.error AtoiError.ErrRange =>
        if neg = true then (minInt, some AtoiError.ErrRange)
        else (maxInt, some AtoiError.ErrRange)
      | Except.ok un =>
        if neg = false ∧ 2 ^ 63 ≤ un then (maxInt, some AtoiError.ErrRange)
        else if neg = true ∧ 2 ^ 63 < un then (minInt, some AtoiError.ErrRange)
        else if neg = true then (-(un : Int), none)
        else ((un : Int), none)

/-- Method `(*Handler).itemHandler`. -/
def Handler.itemHandler {σ : Type} (h : Handler σ) (s : σ) (r : Request) : Response × σ :=
  if r.Method ≠ MethodGet then
    (sendError "method not allowed" StatusMethodNotAllowed, s)
  else
    let idStr := TrimPrefix r.Path "/item/"
    let parsed := Atoi idStr
    if parsed.2 ≠ none then
      (sendError "invalid id" StatusBadRequest, s)
    else
      let got := h.store.Get s parsed.1
      if got.1.2 = false then
        (sendError "not found" StatusNotFound, got.2)
      else
        (sendJSON StatusOK (Data.recipe got.1.1), got.2)

/-! ## Numerals, as the specification words them -/

/-- The characters of a numeral after its optional sign `+` or `-`. -/
def unsigned : List Char → List Char
  | [] => []
  | c :: cs => if c = '+' ∨ c = '-' then cs else c :: cs

/-- An optionally signed decimal numeral: an optional `+` or `-` followed by
one or more decimal digits and nothing else. -/
def isNumeral (s : String) : Bool :=
  !(unsigned s.toList).isEmpty && (unsigned s.toList).all Char.isDigit

/-- The number written by a list of decimal digits. -/
def digitsValue (ds : List Char) : Nat :=
  ds.foldl (fun n c => n * 10 + (c.toNat - 48)) 0

/-- The integer written by an optionally signed decimal numeral. -/
def numeralValue (s : String) : Int :=
  if s.toList.head? = some '-' then -((digitsValue (unsigned s.toList) : Nat) : Int)
  else ((digitsValue (unsigned s.toList) : Nat) : Int)

/-! ## The JSON decoder

The decoder of `encoding/json` as `addHandler` uses it:
`json.NewDecoder(r.Body).Decode(&recipe)` with `recipe` the zero `Recipe`.
`Decode` first reads one JSON value from the front of the stream with the
scanner (`readValue`), then stores that value into the struct (`unmarshal`).
Bodies are sequences of characters; error values are reduced to their kind. -/

/-- Function `isSpace` of the scanner: space, tab, carriage return, newline. -/
def isSpace (c : Char) : Bool :=
  c = ' ' || c = Char.ofNat 9 || c = Char.ofNat 13 || c = Char.ofNat 10

/-- The double quote. -/
def quote : Char := Char.ofNat 34

/-- The backslash. -/
def backslash : Char := Char.ofNat 92

/-- Hexadecimal digits, as the scanner accepts them after a `u` escape. -/
def isHex (c : Char) : Bool :=
  ('0' ≤ c && c ≤ '9') || ('a' ≤ c && c ≤ 'f') || ('A' ≤ c && c ≤ 'F')

/-- The step functions of the scanner (`scanner.step`). -/
inductive ScanState where
  | stateBeginValue
  | stateBeginValueOrEmpty
  | stateBeginStringOrEmpty
  | stateBeginString
  | stateEndValue
  | stateEndTop
  | stateInString
  | stateInStringEsc
  | stateInStringEscU
  | stateInStringEscU1
  | stateInStringEscU12
  | stateInStringEscU123
  | stateNeg
  | state1
  | state0
  | stateDot
  | stateDot0
  | stateE
  | stateESign
  | stateE0
  | stateT
  | stateTr
  | stateTru
  | stateF
  | stateFa
  | stateFal
  | stateFals
  | stateN
  | stateNu
  | stateNul
  | stateError
deriving DecidableEq, Repr

/-- The entries of `scanner.parseState`. -/
inductive ParseState where
  | parseObjectKey
  | parseObjectValue
  | parseArrayValue
deriving DecidableEq, Repr

/-- The scan opcodes returned by the step functions. -/
inductive Opcode where
  | scanContinue
  | scanBeginLiteral
  | scanBeginObject
  | scanObjectKey
  | scanObjectValue
  | scanEndObject
  | scanBeginArray
  | scanArrayValue
  | scanEndArray
  | scanSkipSpace
  | scanEnd
  | scanError
deriving DecidableEq, Repr

/-- The scanner: the current step function and the stack of open composite
values, innermost first. -/
structure Scanner where
  step : ScanState
  parseState : List ParseState
deriving DecidableEq, Repr

/-- Constant `maxNestingDepth`. -/
def maxNestingDepth : Nat := 10000

/-- Method `scanner.reset`. -/
def Scanner.reset : Scanner := { step := ScanState.stateBeginValue, parseState := [] }

/-- Method `scanner.error`: record the error and stop. -/
def Scanner.error (s : Scanner) : Opcode × Scanner :=
  (Opcode.scanError, { s with step := ScanState.stateError })

/-- Method `scanner.pushParseState`, after the step function has been set to
`next`. -/
def Scanner.pushParseState (s : Scanner) (newParseState : ParseState) (next : ScanState)
    (successState : Opcode) : Opcode × Scanner :=
  if s.parseState.length + 1 ≤ maxNestingDepth then
    (successState, { step := next, parseState := newParseState :: s.parseState })
  else
    Scanner.error { step := next, parseState := newParseState :: s.parseState }

/-- Method `scanner.popParseState`. -/
def Scanner.popParseState (s : Scanner) : Scanner :=
  match s.parseState.tail with
  | [] => { step := ScanState.stateEndTop, parseState := [] }
  | rest => { step := ScanState.stateEndValue, parseState := rest }

/-- Function `stateEndTop`: the top-level value ended before this byte. -/
def stateEndTop (s : Scanner) (c : Char) : Opcode × Scanner :=
  if isSpace c then (Opcode.scanEnd, s)
  else (Opcode.scanEnd, { s with step := ScanState.stateError })

/-- Function `stateEndValue`: after a value, such as after a quoted string. -/
def stateEndValue (s : Scanner) (c : Char) : Opcode × Scanner :=
  match s.parseState with
  | [] => stateEndTop { s with step := ScanState.stateEndTop } c
  | ps :: rest =>
    if isSpace c then (Opcode.scanSkipSpace, { s with step := ScanState.stateEndValue })
    else
      match ps with
      | ParseState.parseObjectKey =>
        if c = ':' then
          (Opcode.scanObjectKey,
            { step := ScanState.stateBeginValue,
              parseState := ParseState.parseObjectValue :: rest })
        else s.error
      | ParseState.parseObjectValue =>
        if c = ',' then
          (Opcode.scanObjectValue,
            { step := ScanState.stateBeginString,
              parseState := ParseState.parseObjectKey :: rest })
        else if c = Char.ofNat 125 then (Opcode.scanEndObject, s.popParseState)
        else s.error
      | ParseState.parseArrayValue =>
        if c = ',' then (Opcode.scanArrayValue, { s with step := ScanState.stateBeginValue })
        else if c = ']' then (Opcode.scanEndArray, s.popParseState)
        else s.error

/-- Function `stateBeginValue`: at the beginning of a value. -/
def stateBeginValue (s : Scanner) (c : Char) : Opcode × Scanner :=
  if isSpace c then (Opcode.scanSkipSpace, s)
  else if c = Char.ofNat 123 then
    s.pushParseState ParseState.parseObjectKey ScanState.stateBeginStringOrEmpty
      Opcode.scanBeginObject
  else if c = '[' then
    s.pushParseState ParseState.parseArrayValue ScanState.stateBeginValueOrEmpty
      Opcode.scanBeginArray
  else if c = quote then (Opcode.scanBeginLiteral, { s with step := ScanState.stateInString })
  else if c = '-' then (Opcode.scanBeginLiteral, { s with step := ScanState.stateNeg })
  else if c = '0' then (Opcode.scanBeginLiteral, { s with step := ScanState.state0 })
  else if c = 't' then (Opcode.scanBeginLiteral, { s with step := ScanState.stateT })
  else if c = 'f' then (Opcode.scanBeginLiteral, { s with step := ScanState.stateF })
  else if c = 'n' then (Opcode.scanBeginLiteral, { s with step := ScanState.stateN })
  else if '1' ≤ c ∧ c ≤ '9' then (Opcode.scanBeginLiteral, { s with step := ScanState.state1 })
  else s.error

/-- Function `stateBeginValueOrEmpty`: after `[`. -/
def stateBeginValueOrEmpty (s : Scanner) (c : Char) : Opcode × Scanner :=
  if isSpace c then (Opcode.scanSkipSpace, s)
  else if c = ']' then stateEndValue s c
  else stateBeginValue s c

/-- Function `stateBeginString`: at the beginning of an object key. -/
def stateBeginString (s : Scanner) (c : Char) : Opcode × Scanner :=
  if isSpace c then (Opcode.scanSkipSpace, s)
  else if c = quote then (Opcode.scanBeginLiteral, { s with step := ScanState.stateInString })
  else s.error

/-- Function `stateBeginStringOrEmpty`: after the opening brace of an object. -/
def stateBeginStringOrEmpty (s : Scanner) (c : Char) : Opcode × Scanner :=
  if isSpace c then (Opcode.scanSkipSpace, s)
  else if c = Char.ofNat 125 then
    stateEndValue { s with parseState := ParseState.parseObjectValue :: s.parseState.tail } c
  else stateBeginString s c

/-- Function `stateInString`. -/
def stateInString (s : Scanner) (c : Char) : Opcode × Scanner :=
  if c = quote then (Opcode.scanContinue, { s with step := ScanState.stateEndValue })
  else if c = backslash then (Opcode.scanContinue, { s with step := ScanState.stateInStringEsc })
  else if c.toNat < 32 then s.error
  else (Opcode.scanContinue, s)

/-- Function `stateInStringEsc`: after a backslash in a string. -/
def stateInStringEsc (s : Scanner) (c : Char) : Opcode × Scanner :=
  if c = 'b' ∨ c = 'f' ∨ c = 'n' ∨ c = 'r' ∨ c = 't' ∨ c = backslash ∨ c = '/' ∨ c = quote then
    (Opcode.scanContinue, { s with step := ScanState.stateInString })
  else if c = 'u' then (Opcode.scanContinue, { s with step := ScanState.stateInStringEscU })
  else s.error

/-- The four functions `stateInStringEscU` to `stateInStringEscU123`: one
hexadecimal digit, then on to `next`. -/
def stateHex (next : ScanState) (s : Scanner) (c : Char) : Opcode × Scanner :=
  if isHex c then (Opcode.scanContinue, { s with step := next }) else s.error

/-- Function `state0`: after a leading `0` or after the integer digits. -/
def state0 (s : Scanner) (c : Char) : Opcode × Scanner :=
  if c = '.' then (Opcode.scanContinue, { s with step := ScanState.stateDot })
  else if c = 'e' ∨ c = 'E' then (Opcode.scanContinue, { s with step := ScanState.stateE })
  else stateEndValue s c

/-- Function `state1`: after a non-zero integer digit. -/
def state1 (s : Scanner) (c : Char) : Opcode × Scanner :=
  if c.isDigit then (Opcode.scanContinue, { s with step := ScanState.state1 })
  else state0 s c

/-- Function `stateNeg`: after the minus sign of a number. -/
def stateNeg (s : Scanner) (c : Char) : Opcode × Scanner :=
  if c = '0' then (Opcode.scanContinue, { s with step := ScanState.state0 })
  else if '1' ≤ c ∧ c ≤ '9' then (Opcode.scanContinue, { s with step := ScanState.state1 })
  else s.error

/-- Function `stateDot`: after the decimal point. -/
def stateDot (s : Scanner) (c : Char) : Opcode × Scanner :=
  if c.isDigit then (Opcode.scanContinue, { s with step := ScanState.stateDot0 })
  else s.error

/-- Function `stateDot0`: after a digit of the fraction. -/
def stateDot0 (s : Scanner) (c : Char) : Opcode × Scanner :=
  if c.isDigit then (Opcode.scanContinue, s)
  else if c = 'e' ∨ c = 'E' then (Opcode.scanContinue, { s with step := ScanState.stateE })
  else stateEndValue s c

/-- Function `stateESign`: after the sign of the exponent, or in its place. -/
def stateESign (s : Scanner) (c : Char) : Opcode × Scanner :=
  if c.isDigit then (Opcode.scanContinue, { s with step := ScanState.stateE0 })
  else s.error

/-- Function `stateE`: after the `e` of a number. -/
def stateE (s : Scanner) (c : Char) : Opcode × Scanner :=
  if c = '+' ∨ c = '-' then (Opcode.scanContinue, { s with step := ScanState.stateESign })
  else stateESign s c

/-- Function `stateE0`: after a digit of the exponent. -/
def stateE0 (s : Scanner) (c : Char) : Opcode × Scanner :=
  if c.isDigit then (Opcode.scanContinue, s)
  else stateEndValue s c

/-- The functions `stateT` to `stateNul` for the literals `true`, `false` and
`null`: the expected letter, then on to `next`. -/
def stateLetter (expected : Char) (next : ScanState) (s : Scanner) (c : Char) :
    Opcode × Scanner :=
  if c = expected then (Opcode.scanContinue, { s with step := next }) else s.error

/-- One call `s.step(s, c)`. -/
def Scanner.next (s : Scanner) (c : Char) : Opcode × Scanner :=
  match s.step with
  | ScanState.stateBeginValue => stateBeginValue s c
  | ScanState.stateBeginValueOrEmpty => stateBeginValueOrEmpty s c
  | ScanState.stateBeginStringOrEmpty => stateBeginStringOrEmpty s c
  | ScanState.stateBeginString => stateBeginString s c
  | ScanState.stateEndValue => stateEndValue s c
  | ScanState.stateEndTop => stateEndTop s c
  | ScanState.stateInString => stateInString s c
  | ScanState.stateInStringEsc => stateInStringEsc s c
  | ScanState.stateInStringEscU => stateHex ScanState.stateInStringEscU1 s c
  | ScanState.stateInStringEscU1 => stateHex ScanState.stateInStringEscU12 s c
  | ScanState.stateInStringEscU12 => stateHex ScanState.stateInStringEscU123 s c
  | ScanState.stateInStringEscU123 => stateHex ScanState.stateInString s c
  | ScanState.stateNeg => stateNeg s c
  | ScanState.state1 => state1 s c
  | ScanState.state0 => state0 s c
  | ScanState.stateDot => stateDot s c
  | ScanState.stateDot0 => stateDot0 s c
  | ScanState.stateE => stateE s c
  | ScanState.stateESign => stateESign s c
  | ScanState.stateE0 => stateE0 s c
  | ScanState.stateT => stateLetter 'r' ScanState.stateTr s c
  | ScanState.stateTr => stateLetter 'u' ScanState.stateTru s c
  | ScanState.stateTru => stateLetter 'e' ScanState.stateEndValue s c
  | ScanState.stateF => stateLetter 'a' ScanState.stateFa s c
  | ScanState.stateFa => stateLetter 'l' ScanState.stateFal s c
  | ScanState.stateFal => stateLetter 's' ScanState.stateFals s c
  | ScanState.stateFals => stateLetter 'e' ScanState.stateEndValue s c
  | ScanState.stateN => stateLetter 'u' ScanState.stateNu s c
  | ScanState.stateNu => stateLetter 'l' ScanState.stateNul s c
  | ScanState.stateNul => stateLetter 'l' ScanState.stateEndValue s c
  | ScanState.stateError => (Opcode.scanError, s)

/-- The errors `Decode` returns, by kind: `io.EOF`, `io.ErrUnexpectedEOF`,
`*json.SyntaxError` and `*json.UnmarshalTypeError`. -/
inductive DecodeError where
  | EOF
  | ErrUnexpectedEOF
  | SyntaxError
  | UnmarshalTypeError
deriving DecidableEq, Repr

/-- The loop of `Decoder.readValue` over the bytes of the stream, `n` bytes
into it: the number of bytes of the first JSON value (leading white space
included), or the error. -/
def readValueLoop : Scanner → List Char → Nat → Except DecodeError Nat
  | s, [], n =>
    if (s.next ' ').1 = Opcode.scanEnd then Except.ok n
    else Except.error DecodeError.ErrUnexpectedEOF
  | s, c :: cs, n =>
    match (s.next c).1 with
    | Opcode.scanEnd => Except.ok n
    | Opcode.scanEndObject =>
      if (stateEndValue (s.next c).2 ' ').1 = Opcode.scanEnd then Except.ok (n + 1)
      else readValueLoop (s.next c).2 cs (n + 1)
    | Opcode.scanEndArray =>
      if (stateEndValue (s.next c).2 ' ').1 = Opcode.scanEnd then Except.ok (n + 1)
      else readValueLoop (s.next c).2 cs (n + 1)
    | Opcode.scanError => Except.error DecodeError.SyntaxError
    | _ => readValueLoop (s.next c).2 cs (n + 1)

/-- Method `Decoder.readValue` on a fresh decoder: the text of the first JSON
value of the stream.  A stream that ends before the value is complete gives
`io.ErrUnexpectedEOF`, or `io.EOF` when it holds nothing but white space. -/
def readValue (body : List Char) : Except DecodeError (List Char) :=
  match readValueLoop Scanner.reset body 0 with
  | Except.ok n => Except.ok (body.take n)
  | Except.error DecodeError.ErrUnexpectedEOF =>
    if body.all isSpace then Except.error DecodeError.EOF
    else Except.error DecodeError.ErrUnexpectedEOF
  | Except.error e => Except.error e

/-- A JSON value as `decodeState.value` tells values apart: a literal with its
content, or a composite value, whose content is skipped. -/
inductive Value where
  | null
  | bool (b : Bool)
  | number (text : String)
  | string (s : String)
  | array
  | object
deriving DecidableEq, Repr

/-- A member of a JSON object: the unquoted key and the value. -/
structure Member where
  key : String
  value : Value
deriving DecidableEq, Repr

/-- Skip white space (`scanWhile(scanSkipSpace)`). -/
def skipSpace : List Char → List Char
  | [] => []
  | c :: cs => if isSpace c then skipSpace cs else c :: cs

/-- The string case of `decodeState.rescanLiteral`, after the opening quote:
the raw content up to the closing quote, and what follows that quote. -/
def takeString : List Char → List Char × List Char
  | [] => ([], [])
  | c :: cs =>
    if c = quote then ([], cs)
    else if c = backslash then
      match cs with
      | [] => ([c], [])
      | e :: rest => (c :: e :: (takeString rest).1, (takeString rest).2)
    else (c :: (takeString cs).1, (takeString cs).2)

/-- Method `decodeState.skip` on a composite value, after its opening bracket:
what follows the matching closing bracket.  `depth` counts the open brackets,
`inStr` and `esc` tell whether the scan is inside a string and after a
backslash. -/
def skipNested : Nat → Bool → Bool → List Char → List Char
  | _, _, _, [] => []
  | depth, true, true, _ :: cs => skipNested depth true false cs
  | depth, true, false, c :: cs =>
    if c = backslash then skipNested depth true true cs
    else if c = quote then skipNested depth false false cs
    else skipNested depth true false cs
  | depth, false, _, c :: cs =>
    if c = quote then skipNested depth true false cs
    else if c = Char.ofNat 123 ∨ c = '[' then skipNested (depth + 1) false false cs
    else if c = Char.ofNat 125 ∨ c = ']' then
      if depth ≤ 1 then cs else skipNested (depth - 1) false false cs
    else skipNested depth false false cs

/-- The bytes of a number literal, as `rescanLiteral` tells them. -/
def isNumberChar (c : Char) : Bool :=
  c.isDigit || c = '-' || c = '.' || c = 'e' || c = 'E' || c = '+'

/-- Value of a hexadecimal digit. -/
def hexVal (c : Char) : Nat :=
  if c.isDigit then c.toNat - 48
  else if 'a' ≤ c ∧ c ≤ 'f' then c.toNat - 87
  else c.toNat - 55

/-- Function `getu4` on the four digits after a `u` escape. -/
def getu4 (a b c d : Char) : Nat :=
  ((hexVal a * 16 + hexVal b) * 16 + hexVal c) * 16 + hexVal d

/-- The character of a one-letter escape. -/
def escapeChar (e : Char) : Char :=
  if e = 'b' then Char.ofNat 8
  else if e = 'f' then Char.ofNat 12
  else if e = 'n' then Char.ofNat 10
  else if e = 'r' then Char.ofNat 13
  else if e = 't' then Char.ofNat 9
  else e

/-- Function `unquote` on the raw content of a string literal the scanner has
accepted: escapes are replaced by their characters; a `u` escape that is a
UTF-16 surrogate combines with a following low surrogate escape and is
otherwise replaced by U+FFFD.  `fuel` bounds the number of steps. -/
def unquote : Nat → List Char → List Char
  | 0, _ => []
  | _ + 1, [] => []
  | fuel + 1, c :: cs =>
    if c = backslash then
      match cs with
      | [] => []
      | e :: rest =>
        if e = 'u' then
          match rest with
          | a :: b :: c2 :: d :: rest2 =>
            if 0xD800 ≤ getu4 a b c2 d ∧ getu4 a b c2 d < 0xE000 then
              match rest2 with
              | b1 :: u1 :: a2 :: b2 :: c3 :: d2 :: rest3 =>
                if b1 = backslash ∧ u1 = 'u' ∧ isHex a2 ∧ isHex b2 ∧ isHex c3 ∧ isHex d2 ∧
                    getu4 a b c2 d < 0xDC00 ∧
                    0xDC00 ≤ getu4 a2 b2 c3 d2 ∧ getu4 a2 b2 c3 d2 < 0xE000 then
                  Char.ofNat ((getu4 a b c2 d - 0xD800) * 1024 + (getu4 a2 b2 c3 d2 - 0xDC00)
                      + 0x10000) :: unquote fuel rest3
                else Char.ofNat 0xFFFD :: unquote fuel rest2
              | _ => Char.ofNat 0xFFFD :: unquote fuel rest2
            else Char.ofNat (getu4 a b c2 d) :: unquote fuel rest2
          | _ => []
        else escapeChar e :: unquote fuel rest
    else c :: unquote fuel cs

/-- One value of a text the scanner has accepted, from its first byte: the
value as `decodeState.value` sees it, and what follows it. -/
def takeValue (cs : List Char) : Value × List Char :=
  match cs with
  | [] => (Value.null, [])
  | c :: rest =>
    if c = quote then
      (Value.string (String.mk (unquote rest.length (takeString rest).1)), (takeString rest).2)
    else if c = Char.ofNat 123 then (Value.object, skipNested 1 false false rest)
    else if c = '[' then (Value.array, skipNested 1 false false rest)
    else if c = 't' then (Value.bool true, rest.drop 3)
    else if c = 'f' then (Value.bool false, rest.drop 4)
    else if c = 'n' then (Value.null, rest.drop 3)
    else (Value.number (String.mk (cs.takeWhile isNumberChar)), cs.dropWhile isNumberChar)

/-- The loop of `decodeState.object` over a text the scanner has accepted,
after the opening brace: the members in the order of the text.  `fuel` bounds
the number of members. -/
def objectMembers : Nat → List Char → List Member
  | 0, _ => []
  | fuel + 1, cs =>
    match skipSpace cs with
    | [] => []
    | c :: afterQuote =>
      if c = Char.ofNat 125 then []
      else
        match skipSpace (takeString afterQuote).2 with
        | [] => []
        | _ :: afterColon =>
          let key := String.mk (unquote afterQuote.length (takeString afterQuote).1)
          let v := takeValue (skipSpace afterColon)
          match skipSpace v.2 with
          | [] => [{ key := key, value := v.1 }]
          | sep :: more =>
            if sep = ',' then { key := key, value := v.1 } :: objectMembers fuel more
            else [{ key := key, value := v.1 }]

/-- The first JSON value of a body, as `Decode` reads it: the value, and its
members when it is an object.  An error when the body does not begin with a
complete JSON value. -/
def firstValue (body : String) : Except DecodeError (Value × List Member) :=
  match readValue body.toList with
  | Except.error e => Except.error e
  | Except.ok text =>
    match skipSpace text with
    | [] => Except.ok (Value.null, [])
    | c :: rest =>
      if c = Char.ofNat 123 then Except.ok (Value.object, objectMembers text.length rest)
      else Except.ok ((takeValue (c :: rest)).1, [])

/-- The letters of an object key reduced for the match with a field name, as
`foldName` does: ASCII capitals become small letters, the Kelvin sign becomes
`k` and the long s becomes `s`. -/
def foldChar (c : Char) : Char :=
  if 'A' ≤ c ∧ c ≤ 'Z' then Char.ofNat (c.toNat + 32)
  else if c = Char.ofNat 0x212A then 'k'
  else if c = Char.ofNat 0x17F then 's'
  else c

/-- Whether an object key selects the struct field with JSON name `name` (a
name in small ASCII letters): exactly, or else regardless of letter case. -/
def keyMatches (key name : String) : Bool :=
  key.toList.map foldChar = name.toList

/-- Method `decodeState.saveError`: keep the first error. -/
def saveError (saved : Option DecodeError) (e : DecodeError) : Option DecodeError :=
  match saved with
  | none => some e
  | some first => some first

/-- One turn of the loop of `decodeState.object` on a `Recipe`: store the value
of a member in the field its key selects.  `null` leaves the field as it is; a
value of another JSON type than the field takes, or a number that is not an
`int`, saves an `UnmarshalTypeError` and leaves the field as it is; a key that
selects no field is skipped. -/
def storeMember (p : Recipe × Option DecodeError) (m : Member) : Recipe × Option DecodeError :=
  if keyMatches m.key "id" then
    match m.value with
    | Value.null => p
    | Value.number text =>
      if (Atoi text).2 = none then ({ p.1 with ID := (Atoi text).1 }, p.2)
      else (p.1, saveError p.2 DecodeError.UnmarshalTypeError)
    | _ => (p.1, saveError p.2 DecodeError.UnmarshalTypeError)
  else if keyMatches m.key "name" then
    match m.value with
    | Value.null => p
    | Value.string s => ({ p.1 with Name := s }, p.2)
    | _ => (p.1, saveError p.2 DecodeError.UnmarshalTypeError)
  else if keyMatches m.key "cooked" then
    match m.value with
    | Value.null => p
    | Value.bool b => ({ p.1 with Cooked := b }, p.2)
    | _ => (p.1, saveError p.2 DecodeError.UnmarshalTypeError)
  else p

/-- Method `decodeState.unmarshal` into a zero `Recipe`: an object is stored
member by member, `null` changes nothing, every other value is an
`UnmarshalTypeError`. -/
def unmarshal (v : Value) (members : List Member) : Recipe × Option DecodeError :=
  match v with
  | Value.object => members.foldl storeMember (Recipe.zero, none)
  | Value.null => (Recipe.zero, none)
  | _ => (Recipe.zero, some DecodeError.UnmarshalTypeError)

/-- The text of an error kind. -/
def DecodeError.text : DecodeError → String
  | DecodeError.EOF => "EOF"
  | DecodeError.ErrUnexpectedEOF => "unexpected EOF"
  | DecodeError.SyntaxError => "invalid character"
  | DecodeError.UnmarshalTypeError => "json: cannot unmarshal"

/-- The call `json.NewDecoder(r.Body).Decode(&recipe)` of `addHandler`. -/
def jsonDecode : Decoder := fun body =>
  match firstValue body with
  | Except.error e => { recipe := Recipe.zero, err := some e.text }
  | Except.ok (v, members) =>
    { recipe := (unmarshal v members).1, err := (unmarshal v members).2.map DecodeError.text }

/-! ## JSON bodies, as the specification words them -/

/-- A well-formed JSON document: one JSON value, white space around it allowed,
and nothing else. -/
def isJSONDocument (body : String) : Bool :=
  match readValue body.toList with
  | Except.ok text => (body.toList.drop text.length).all isSpace
  | Except.error _ => false

/-- A member fits the recipe when, if it is named `id`, `name` or `cooked`
(letter case ignored), its value is `null` or of the type of the field: an
integer that fits an `int`, a string, a boolean.  Members of other names fit. -/
def Member.fits (m : Member) : Bool :=
  if keyMatches m.key "id" then
    match m.value with
    | Value.null => true
    | Value.number text =>
      isNumeral text && decide (minInt ≤ numeralValue text ∧ numeralValue text ≤ maxInt)
    | _ => false
  else if keyMatches m.key "name" then
    match m.value with
    | Value.null => true
    | Value.string _ => true
    | _ => false
  else if keyMatches m.key "cooked" then
    match m.value with
    | Value.null => true
    | Value.bool _ => true
    | _ => false
  else true

/-- The string a member gives for `name`, if it gives one. -/
def nameGiven (m : Member) : Option String :=
  if keyMatches m.key "name" then
    match m.value with
    | Value.string s => some s
    | _ => none
  else none

/-- The boolean a member gives for `cooked`, if it gives one. -/
def cookedGiven (m : Member) : Option Bool :=
  if keyMatches m.key "cooked" then
    match m.value with
    | Value.bool b => some b
    | _ => none
  else none

/-- The name a JSON object supplies: the last string given for `name`, the
empty string when there is none. -/
def suppliedName (ms : List Member) : String :=
  ((ms.filterMap nameGiven).getLast?).getD ""

/-- The flag a JSON object supplies: the last boolean given for `cooked`,
`false` when there is none. -/
def suppliedCooked (ms : List Member) : Bool :=
  ((ms.filterMap cookedGiven).getLast?).getD false

/-! ## Machine integers -/

theorem wrapInt_eq_self {x : Int} (hlo : minInt ≤ x) (hhi : x ≤ maxInt) : wrapInt x = x := by
  unfold wrapInt
  unfold minInt at hlo
  unfold maxInt at hhi
  omega

theorem wrapInt_add_wrapInt (x y : Int) : wrapInt (wrapInt x + y) = wrapInt (x + y) := by
  unfold wrapInt
  omega

theorem wrapInt_natCast_succ {k n : Nat} (hk : k < n) (hn : (n : Int) ≤ maxInt) :
    wrapInt ((k : Int) + 1) = (k : Int) + 1 := by
  apply wrapInt_eq_self
  · unfold minInt; omega
  · omega

theorem wrapInt_natCast {n : Nat} (hn : (n : Int) ≤ maxInt) : wrapInt (n : Int) = (n : Int) := by
  apply wrapInt_eq_self
  · unfold minInt; omega
  · exact hn

/-! ## The scan of `Get` -/

theorem getLoop_found_iff (l : Slice Recipe) (id : Int) :
    (getLoop l id).2 = true ↔ ∃ r ∈ l, r.ID = id := by
  induction l with
  | nil => simp [getLoop]
  | cons a l ih =>
    by_cases h : a.ID = id
    · simp [getLoop, h]
    · simp [getLoop, h, ih]

theorem getLoop_not_found (l : Slice Recipe) (id : Int) (h : (getLoop l id).2 = false) :
    (getLoop l id).1 = Recipe.zero := by
  induction l with
  | nil => simp [getLoop]
  | cons a l ih =>
    by_cases ha : a.ID = id
    · simp [getLoop, ha] at h
    · simp only [getLoop, ha, if_false] at h ⊢
      exact ih h

theorem getLoop_found_ID (l : Slice Recipe) (id : Int) (h : (getLoop l id).2 = true) :
    (getLoop l id).1 ∈ l ∧ (getLoop l id).1.ID = id := by
  induction l with
  | nil => simp [getLoop] at h
  | cons a l ih =>
    by_cases ha : a.ID = id
    · simp [getLoop, ha]
    · simp only [getLoop, ha, if_false] at h ⊢
      exact ⟨List.mem_cons_of_mem _ (ih h).1, (ih h).2⟩

theorem getLoop_append_fresh (l l' : Slice Recipe) (x : Recipe)
    (h : ∀ r ∈ l, r.ID ≠ x.ID) : getLoop (l ++ x :: l') x.ID = (x, true) := by
  induction l with
  | nil => simp [getLoop]
  | cons a l ih =>
    have ha : a.ID ≠ x.ID := h a (List.mem_cons_self _ _)
    simp only [List.cons_append, getLoop, ha, if_false]
    exact ih (fun r hr => h r (List.mem_cons_of_mem _ hr))

/-! ## Sequences of calls -/

theorem call_recipes (s : MemoryStore) (c : Call) :
    (s.call c).2.recipes = s.recipes ++ added [(s.call c).1] := by
  cases c <;> simp [MemoryStore.call, MemoryStore.Add, MemoryStore.List, MemoryStore.Get, added]

theorem added_cons (x : Ret) (xs : Slice Ret) : added (x :: xs) = added [x] ++ added xs := by
  cases x <;> simp [added]

theorem run_recipes (cs : Slice Call) (s : MemoryStore) :
    (s.run cs).2.recipes = s.recipes ++ added (s.run cs).1 := by
  induction cs generalizing s with
  | nil => simp [MemoryStore.run, added]
  | cons c cs ih =>
    simp only [MemoryStore.run]
    rw [ih, call_recipes, List.append_assoc, ← added_cons]

theorem added_run_length (cs : Slice Call) (s : MemoryStore) :
    (added (s.run cs).1).length = countAdds cs := by
  induction cs generalizing s with
  | nil => simp [MemoryStore.run, added, countAdds]
  | cons c cs ih =>
    cases c <;> simp [MemoryStore.run, MemoryStore.call, added, countAdds, ih]

theorem call_numbered (s : MemoryStore) (c : Call)
    (h1 : s.nextID = wrapInt (len s.recipes))
    (h2 : ∀ (k : Nat) (r : Recipe), s.recipes[k]? = some r → r.ID = wrapInt ((k : Int) + 1)) :
    (s.call c).2.nextID = wrapInt (len (s.call c).2.recipes) ∧
      ∀ (k : Nat) (r : Recipe), (s.call c).2.recipes[k]? = some r →
        r.ID = wrapInt ((k : Int) + 1) := by
  cases c with
  | List => exact ⟨h1, h2⟩
  | Get id => exact ⟨h1, h2⟩
  | Add r0 =>
    have hn : wrapInt (s.nextID + 1) = wrapInt ((s.recipes.length : Int) + 1) := by
      rw [h1, len, wrapInt_add_wrapInt]
    refine ⟨?_, ?_⟩
    · simp only [MemoryStore.call, MemoryStore.Add, len, List.length_append, List.length_singleton]
      rw [hn]; push_cast; rfl
    · intro k r hk
      simp only [MemoryStore.call, MemoryStore.Add] at hk
      by_cases hlt : k < s.recipes.length
      · rw [List.getElem?_append_left hlt] at hk
        exact h2 k r hk
      · have hge : s.recipes.length ≤ k := Nat.le_of_not_lt hlt
        rw [List.getElem?_append_right hge] at hk
        by_cases hz : k - s.recipes.length = 0
        · rw [hz] at hk
          simp only [List.getElem?_cons_zero, Option.some.injEq] at hk
          have hk' : k = s.recipes.length := by omega
          rw [← hk, hk']
          exact hn
        · obtain ⟨m, hm⟩ := Nat.exists_eq_succ_of_ne_zero hz
          rw [hm] at hk
          simp at hk

theorem run_numbered (cs : Slice Call) (s : MemoryStore)
    (h1 : s.nextID = wrapInt (len s.recipes))
    (h2 : ∀ (k : Nat) (r : Recipe), s.recipes[k]? = some r → r.ID = wrapInt ((k : Int) + 1)) :
    (s.run cs).2.nextID = wrapInt (len (s.run cs).2.recipes) ∧
      ∀ (k : Nat) (r : Recipe), (s.run cs).2.recipes[k]? = some r →
        r.ID = wrapInt ((k : Int) + 1) := by
  induction cs generalizing s with
  | nil => exact ⟨h1, h2⟩
  | cons c cs ih =>
    simp only [MemoryStore.run]
    exact ih (s.call c).2 (call_numbered s c h1 h2).1 (call_numbered s c h1 h2).2

theorem reachable_numbered (cs : Slice Call)
    (h : len (MemoryStore.empty.run cs).2.recipes ≤ maxInt) :
    (MemoryStore.empty.run cs).2.nextID = len (MemoryStore.empty.run cs).2.recipes ∧
      ∀ (k : Nat) (r : Recipe), (MemoryStore.empty.run cs).2.recipes[k]? = some r →
        r.ID = (k : Int) + 1 := by
  have hrun := run_numbered cs MemoryStore.empty (by decide) (by simp [MemoryStore.empty])
  refine ⟨?_, ?_⟩
  · rw [hrun.1]
    exact wrapInt_natCast h
  · intro k r hk
    rw [hrun.2 k r hk]
    have hlt : k < (MemoryStore.empty.run cs).2.recipes.length := by
      by_contra hge
      rw [List.getElem?_eq_none (Nat.le_of_not_lt hge)] at hk
      exact Option.noConfusion hk
    exact wrapInt_natCast_succ hlt h

theorem run_adds_length (rs : Slice Recipe) (s : MemoryStore) :
    (s.run (rs.map Call.Add)).1.length = rs.length := by
  induction rs generalizing s with
  | nil => simp [MemoryStore.run]
  | cons a rs ih => simp [MemoryStore.run, ih]

theorem run_adds_getElem? (rs : Slice Recipe) (s : MemoryStore) (i : Nat) (r : Recipe)
    (hr : rs[i]? = some r) :
    (s.run (rs.map Call.Add)).1[i]? =
      some (Ret.Add { ID := wrapInt (s.nextID + (i : Int) + 1), Name := r.Name,
                      Cooked := r.Cooked }) := by
  induction rs generalizing s i with
  | nil => simp at hr
  | cons a rs ih =>
    cases i with
    | zero =>
      simp only [List.getElem?_cons_zero, Option.some.injEq] at hr
      simp [MemoryStore.run, MemoryStore.call, MemoryStore.Add, hr]
    | succ j =>
      simp only [List.getElem?_cons_succ] at hr
      simp only [List.map_cons, MemoryStore.run, List.getElem?_cons_succ]
      rw [ih (s.call (Call.Add a)).2 j hr]
      have hid : (s.call (Call.Add a)).2.nextID = wrapInt (s.nextID + 1) := rfl
      rw [hid]
      have hw : wrapInt (wrapInt (s.nextID + 1) + (j : Int) + 1)
          = wrapInt (s.nextID + ((j + 1 : Nat) : Int) + 1) := by
        rw [Int.add_assoc (wrapInt (s.nextID + 1)), wrapInt_add_wrapInt]
        congr 1
        push_cast
        omega
      rw [hw]

theorem run_append (cs cs2 : Slice Call) (s : MemoryStore) :
    s.run (cs ++ cs2) = ((s.run cs).1 ++ ((s.run cs).2.run cs2).1, ((s.run cs).2.run cs2).2) := by
  induction cs generalizing s with
  | nil => simp [MemoryStore.run]
  | cons c cs ih => simp [MemoryStore.run, ih]

/-! ## The store -/

/-- C1: starting from the empty store, the calls `Add(rs[0])`, `Add(rs[1])`, ...
return one record per call, and the call at 0-based position `i` (the
`i+1`-th call) returns the record with `ID = i + 1` and the name and flag of
`rs[i]`: the ids are 1, 2, 3, ... without gap or repeat.  The number of records
is within the range of a slice length. -/
theorem add_returns_consecutive_ids (rs : Slice Recipe) (h : len rs ≤ maxInt) :
    (MemoryStore.empty.run (rs.map Call.Add)).1.length = rs.length ∧
      ∀ (i : Nat) (r : Recipe), rs[i]? = some r →
        (MemoryStore.empty.run (rs.map Call.Add)).1[i]? =
          some (Ret.Add { ID := (i : Int) + 1, Name := r.Name, Cooked := r.Cooked }) := by
  refine ⟨run_adds_length rs _, ?_⟩
  intro i r hr
  rw [run_adds_getElem? rs MemoryStore.empty i r hr]
  have hlt : i < rs.length := by
    by_contra hge
    rw [List.getElem?_eq_none (Nat.le_of_not_lt hge)] at hr
    exact Option.noConfusion hr
  have hw : wrapInt (MemoryStore.empty.nextID + (i : Int) + 1) = (i : Int) + 1 := by
    have h0 : MemoryStore.empty.nextID + (i : Int) + 1 = (i : Int) + 1 := by
      simp [MemoryStore.empty]
    rw [h0]
    exact wrapInt_natCast_succ hlt h
  rw [hw]

theorem add_returns_consecutive_ids_witness :
    (MemoryStore.empty.run
        ([{ ID := 0, Name := "Tea", Cooked := false },
          { ID := 0, Name := "Coffee", Cooked := true }].map Call.Add)).1.length = 2 ∧
      ∀ (i : Nat) (r : Recipe),
        [({ ID := 0, Name := "Tea", Cooked := false } : Recipe),
          { ID := 0, Name := "Coffee", Cooked := true }][i]? = some r →
        (MemoryStore.empty.run
            ([{ ID := 0, Name := "Tea", Cooked := false },
              { ID := 0, Name := "Coffee", Cooked := true }].map Call.Add)).1[i]? =
          some (Ret.Add { ID := (i : Int) + 1, Name := r.Name, Cooked := r.Cooked }) :=
  add_returns_consecutive_ids
    [{ ID := 0, Name := "Tea", Cooked := false }, { ID := 0, Name := "Coffee", Cooked := true }]
    (by decide)

/-- C2: in every state reached from the empty store by `Add`, `List` and `Get`
calls (its slice within the range of a slice length), the counter `nextID`
equals the number of stored records, the record at 0-based position `k` has
`ID = k + 1`, every stored id is positive, and the stored ids are pairwise
distinct. -/
theorem reachable_ids_are_positions (cs : Slice Call)
    (h : len (MemoryStore.empty.run cs).2.recipes ≤ maxInt) :
    (MemoryStore.empty.run cs).2.nextID = len (MemoryStore.empty.run cs).2.recipes ∧
      (∀ (k : Nat) (r : Recipe), (MemoryStore.empty.run cs).2.recipes[k]? = some r →
        r.ID = (k : Int) + 1) ∧
      (∀ r ∈ (MemoryStore.empty.run cs).2.recipes, 0 < r.ID) ∧
      ((MemoryStore.empty.run cs).2.recipes.map Recipe.ID).Nodup := by
  obtain ⟨hn, hpos⟩ := reachable_numbered cs h
  refine ⟨hn, hpos, ?_, ?_⟩
  · intro r hr
    obtain ⟨k, hk⟩ := List.getElem?_of_mem hr
    rw [hpos k r hk]
    omega
  · have hmap : (MemoryStore.empty.run cs).2.recipes.map Recipe.ID
        = (List.range (MemoryStore.empty.run cs).2.recipes.length).map
            (fun k : Nat => (k : Int) + 1) := by
      apply List.ext_getElem?
      intro k
      by_cases hk : k < (MemoryStore.empty.run cs).2.recipes.length
      · have hget : (MemoryStore.empty.run cs).2.recipes[k]?
            = some ((MemoryStore.empty.run cs).2.recipes[k]) := List.getElem?_eq_getElem hk
        simp only [List.getElem?_map, hget, Option.map_some', List.getElem?_range hk]
        rw [hpos k _ hget]
      · have hge := Nat.le_of_not_lt hk
        simp [List.getElem?_eq_none, hge]
    rw [hmap]
    apply List.Nodup.map _ (List.nodup_range _)
    intro a b hab
    simpa using hab

theorem reachable_ids_are_positions_witness :
    (MemoryStore.empty.run [Call.Add { ID := 9, Name := "Tea", Cooked := false }, Call.List,
        Call.Add { ID := 9, Name := "Coffee", Cooked := true }, Call.Get 1]).2.nextID = 2 ∧
      ((MemoryStore.empty.run [Call.Add { ID := 9, Name := "Tea", Cooked := false }, Call.List,
        Call.Add { ID := 9, Name := "Coffee", Cooked := true }, Call.Get 1]).2.recipes.map
          Recipe.ID).Nodup :=
  ⟨(reachable_ids_are_positions [Call.Add { ID := 9, Name := "Tea", Cooked := false }, Call.List,
        Call.Add { ID := 9, Name := "Coffee", Cooked := true }, Call.Get 1] (by decide)).1,
   (reachable_ids_are_positions [Call.Add { ID := 9, Name := "Tea", Cooked := false }, Call.List,
        Call.Add { ID := 9, Name := "Coffee", Cooked := true }, Call.Get 1] (by decide)).2.2.2⟩

/-- C3: for every store state `s` and every recipe `r`, `Add(r)` returns the
record with `ID` the incremented counter (`s.nextID + 1` in `int` arithmetic)
and the `Name` and `Cooked` of `r`; the new counter is that same value, and the
new collection is the old one with exactly the returned record appended at the
end.  Whenever `s.nextID + 1` is within the range of `int`, the `int` sum is
the mathematical `s.nextID + 1`. -/
theorem Add_spec (s : MemoryStore) (r : Recipe) :
    (s.Add r).1 = { ID := wrapInt (s.nextID + 1), Name := r.Name, Cooked := r.Cooked } ∧
      (s.Add r).2.nextID = wrapInt (s.nextID + 1) ∧
      (s.Add r).2.recipes = s.recipes ++ [(s.Add r).1] ∧
      (minInt ≤ s.nextID + 1 → s.nextID + 1 ≤ maxInt →
        (s.Add r).1.ID = s.nextID + 1 ∧ (s.Add r).2.nextID = s.nextID + 1) := by
  refine ⟨rfl, rfl, rfl, ?_⟩
  intro hlo hhi
  exact ⟨wrapInt_eq_self hlo hhi, wrapInt_eq_self hlo hhi⟩

theorem Add_spec_witness :
    (({ recipes := [{ ID := 1, Name := "Tea", Cooked := false }], nextID := 1 } :
        MemoryStore).Add { ID := 7, Name := "Coffee", Cooked := true }).1.ID = 1 + 1 ∧
      (({ recipes := [{ ID := 1, Name := "Tea", Cooked := false }], nextID := 1 } :
        MemoryStore).Add { ID := 7, Name := "Coffee", Cooked := true }).2.nextID = 1 + 1 :=
  (Add_spec { recipes := [{ ID := 1, Name := "Tea", Cooked := false }], nextID := 1 }
    { ID := 7, Name := "Coffee", Cooked := true }).2.2.2 (by decide) (by decide)

/-- C4: after any sequence of `Add`, `List` and `Get` calls on the empty store,
`List()` returns exactly the records returned by the `Add` calls, in call
order, and so as many records as there were `Add` calls. -/
theorem List_returns_added (cs : Slice Call) :
    (MemoryStore.List (MemoryStore.empty.run cs).2).1 = added (MemoryStore.empty.run cs).1 ∧
      (MemoryStore.List (MemoryStore.empty.run cs).2).1.length = countAdds cs := by
  have h : (MemoryStore.List (MemoryStore.empty.run cs).2).1
      = added (MemoryStore.empty.run cs).1 := by
    show (MemoryStore.empty.run cs).2.recipes = _
    rw [run_recipes]
    rfl
  exact ⟨h, by rw [h, added_run_length]⟩

/-- C5: in a state reached from the empty store (its slice within the range of
a slice length), `Get(id)` reports found exactly when `id` is the `ID` of a
record returned by an earlier `Add`, which is exactly when
`1 ≤ id ≤ number of Add calls`; when found, the record has that `ID`; when not
found (so for 0 and for negative ids) the record is the zero `Recipe`. -/
theorem Get_found_iff (cs : Slice Call) (id : Int)
    (h : len (MemoryStore.empty.run cs).2.recipes ≤ maxInt) :
    (((MemoryStore.empty.run cs).2.Get id).1.2 = true ↔
        ∃ x ∈ added (MemoryStore.empty.run cs).1, x.ID = id) ∧
      (((MemoryStore.empty.run cs).2.Get id).1.2 = true ↔
        1 ≤ id ∧ id ≤ (countAdds cs : Int)) ∧
      (((MemoryStore.empty.run cs).2.Get id).1.2 = true →
        ((MemoryStore.empty.run cs).2.Get id).1.1.ID = id) ∧
      (((MemoryStore.empty.run cs).2.Get id).1.2 = false →
        ((MemoryStore.empty.run cs).2.Get id).1.1 = Recipe.zero) := by
  have hrec : (MemoryStore.empty.run cs).2.recipes = added (MemoryStore.empty.run cs).1 := by
    rw [run_recipes]
    rfl
  have hlen : (MemoryStore.empty.run cs).2.recipes.length = countAdds cs := by
    rw [hrec, added_run_length]
  obtain ⟨_, hpos⟩ := reachable_numbered cs h
  have hfound : ((MemoryStore.empty.run cs).2.Get id).1.2 = true ↔
      ∃ x ∈ (MemoryStore.empty.run cs).2.recipes, x.ID = id :=
    getLoop_found_iff _ id
  refine ⟨?_, ?_, ?_, ?_⟩
  · rw [hfound, hrec]
  · rw [hfound, ← hlen]
    constructor
    · rintro ⟨x, hx, hid⟩
      obtain ⟨k, hk⟩ := List.getElem?_of_mem hx
      have hklt : k < (MemoryStore.empty.run cs).2.recipes.length := by
        by_contra hge
        rw [List.getElem?_eq_none (Nat.le_of_not_lt hge)] at hk
        exact Option.noConfusion hk
      have := hpos k x hk
      omega
    · rintro ⟨h1, h2⟩
      have hklt : (id - 1).toNat < (MemoryStore.empty.run cs).2.recipes.length := by omega
      refine ⟨(MemoryStore.empty.run cs).2.recipes[(id - 1).toNat], List.getElem_mem _, ?_⟩
      rw [hpos (id - 1).toNat _ (List.getElem?_eq_getElem hklt)]
      omega
  · intro hf
    exact (getLoop_found_ID _ id hf).2
  · intro hf
    exact getLoop_not_found _ id hf

theorem Get_found_iff_witness :
    (((MemoryStore.empty.run [Call.Add { ID := 0, Name := "Tea", Cooked := false },
          Call.Add { ID := 0, Name := "Coffee", Cooked := true }]).2.Get 999).1.2 = true ↔
        1 ≤ (999 : Int) ∧ (999 : Int) ≤
          (countAdds [Call.Add { ID := 0, Name := "Tea", Cooked := false },
            Call.Add { ID := 0, Name := "Coffee", Cooked := true }] : Int)) :=
  (Get_found_iff [Call.Add { ID := 0, Name := "Tea", Cooked := false },
      Call.Add { ID := 0, Name := "Coffee", Cooked := true }] 999 (by decide)).2.1

/-- C6: `Get` undoes `Add`.  In a state reached from the empty store, if
`Add(r)` returns the record `x`, then `Get(x.ID)` returns `(x, true)` right
away (`cs2 = []`) and also after any further `Add`, `List` and `Get` calls
`cs2` (the slice staying within the range of a slice length); `x` carries the
`Name` and `Cooked` given to `Add`. -/
theorem Get_after_Add (cs : Slice Call) (r : Recipe) (cs2 : Slice Call)
    (h : len ((((MemoryStore.empty.run cs).2.Add r).2.run cs2).2.recipes) ≤ maxInt) :
    (((((MemoryStore.empty.run cs).2.Add r).2.run cs2).2.Get
        ((MemoryStore.empty.run cs).2.Add r).1.ID).1 =
        (((MemoryStore.empty.run cs).2.Add r).1, true)) ∧
      ((MemoryStore.empty.run cs).2.Add r).1.Name = r.Name ∧
      ((MemoryStore.empty.run cs).2.Add r).1.Cooked = r.Cooked := by
  refine ⟨?_, rfl, rfl⟩
  have hwhole : (((MemoryStore.empty.run cs).2.Add r).2.run cs2).2
      = (MemoryStore.empty.run (cs ++ Call.Add r :: cs2)).2 := by
    rw [run_append]
    rfl
  have hrec : (((MemoryStore.empty.run cs).2.Add r).2.run cs2).2.recipes
      = (MemoryStore.empty.run cs).2.recipes ++
          ((MemoryStore.empty.run cs).2.Add r).1 ::
            added ((((MemoryStore.empty.run cs).2.Add r).2.run cs2).1) := by
    rw [run_recipes]
    show ((MemoryStore.empty.run cs).2.recipes ++ [_]) ++ _ = _
    rw [List.append_assoc]
    rfl
  have hnum := reachable_numbered (cs ++ Call.Add r :: cs2) (by rw [← hwhole]; exact h)
  rw [← hwhole] at hnum
  obtain ⟨_, hpos⟩ := hnum
  show getLoop _ _ = _
  rw [hrec]
  apply getLoop_append_fresh
  intro y hy habs
  obtain ⟨k, hk⟩ := List.getElem?_of_mem hy
  have hklt : k < (MemoryStore.empty.run cs).2.recipes.length := by
    by_contra hge
    rw [List.getElem?_eq_none (Nat.le_of_not_lt hge)] at hk
    exact Option.noConfusion hk
  have hyid := hpos k y (by rw [hrec, List.getElem?_append_left hklt]; exact hk)
  have hxid := hpos (MemoryStore.empty.run cs).2.recipes.length
    ((MemoryStore.empty.run cs).2.Add r).1
    (by rw [hrec, List.getElem?_append_right (Nat.le_refl _)]; simp)
  omega

theorem Get_after_Add_witness :
    ((((MemoryStore.empty.run [Call.Add { ID := 0, Name := "Tea", Cooked := false }]).2.Add
          { ID := 0, Name := "Salad", Cooked := false }).2.run
          [Call.Add { ID := 0, Name := "Coffee", Cooked := true }, Call.List]).2.Get
        ((MemoryStore.empty.run [Call.Add { ID := 0, Name := "Tea", Cooked := false }]).2.Add
          { ID := 0, Name := "Salad", Cooked := false }).1.ID).1 =
      (((MemoryStore.empty.run [Call.Add { ID := 0, Name := "Tea", Cooked := false }]).2.Add
          { ID := 0, Name := "Salad", Cooked := false }).1, true) :=
  (Get_after_Add [Call.Add { ID := 0, Name := "Tea", Cooked := false }]
    { ID := 0, Name := "Salad", Cooked := false }
    [Call.Add { ID := 0, Name := "Coffee", Cooked := true }, Call.List] (by decide)).1

/-- C7: `List` and `Get` leave the store as it is (collection and counter), and
`List()` returns exactly the current collection; `Add` only appends: the list
returned by `List()` before `Add(r)` is a prefix of the one returned after it,
and likewise a prefix of the list returned after any further sequence of
calls. -/
theorem reads_frame_and_Add_appends (s : MemoryStore) (id : Int) (r : Recipe)
    (cs : Slice Call) :
    (MemoryStore.List s).2 = s ∧ (s.Get id).2 = s ∧ (MemoryStore.List s).1 = s.recipes ∧
      (MemoryStore.List s).1 <+: (MemoryStore.List (s.Add r).2).1 ∧
      (MemoryStore.List s).1 <+: (MemoryStore.List (s.run cs).2).1 := by
  refine ⟨rfl, rfl, rfl, ?_, ?_⟩
  · exact List.prefix_append _ _
  · show s.recipes <+: (s.run cs).2.recipes
    rw [run_recipes]
    exact List.prefix_append _ _

/-! ## The handlers -/

theorem countCooked_eq (l : Slice Recipe) (c : Int) (hc : 0 ≤ c)
    (h : c + (l.length : Int) ≤ maxInt) :
    countCooked l c = c + ((l.countP fun r => r.Cooked : Nat) : Int) := by
  induction l generalizing c with
  | nil => simp [countCooked]
  | cons a l ih =>
    simp only [List.length_cons, Nat.cast_add, Nat.cast_one] at h
    cases ha : a.Cooked with
    | false =>
      simp only [countCooked, ha, Bool.false_eq_true, if_false]
      rw [ih c hc (by omega)]
      simp [List.countP_cons, ha]
    | true =>
      have hw : wrapInt (c + 1) = c + 1 :=
        wrapInt_eq_self (by unfold minInt; omega) (by omega)
      simp only [countCooked, ha, if_true, hw]
      rw [ih (c + 1) (by omega) (by omega)]
      simp [List.countP_cons, ha]
      omega

/-- C8: on a `GET` request the stats handler answers with status 200 and the
`Stats` value whose `Total` is the length of the list returned by the store's
`List()` and whose `Cooked` is the number of entries of that list with
`Cooked == true`; the store is left in the state `List()` left it in.  The
list is within the range of a slice length. -/
theorem statsHandler_counts {σ : Type} (h : Handler σ) (s : σ) (r : Request)
    (hm : r.Method = MethodGet) (hl : len (h.store.List s).1 ≤ maxInt) :
    (h.statsHandler s r).1.status = 200 ∧
      (h.statsHandler s r).1.data =
        Data.stats { Total := ((h.store.List s).1.length : Int),
                     Cooked := (((h.store.List s).1.countP fun x => x.Cooked : Nat) : Int) } ∧
      (h.statsHandler s r).2 = (h.store.List s).2 := by
  have hc : countCooked (h.store.List s).1 0
      = (((h.store.List s).1.countP fun x => x.Cooked : Nat) : Int) := by
    rw [countCooked_eq _ 0 (Int.le_refl 0) (by rw [Int.zero_add]; exact hl), Int.zero_add]
  refine ⟨?_, ?_, ?_⟩
  · simp [Handler.statsHandler, hm, sendJSON, StatusOK]
  · simp [Handler.statsHandler, hm, sendJSON, hc, len]
  · simp [Handler.statsHandler, hm]

theorem statsHandler_counts_witness :
    ((Handler.mk MemoryStore.store).statsHandler
        { recipes := [{ ID := 1, Name := "Soup", Cooked := true },
                      { ID := 2, Name := "Salad", Cooked := false }], nextID := 2 }
        { Method := "GET", Path := "/stats", Body := "" }).1.data =
      Data.stats { Total := 2, Cooked := 1 } :=
  (statsHandler_counts (Handler.mk MemoryStore.store)
    { recipes := [{ ID := 1, Name := "Soup", Cooked := true },
                  { ID := 2, Name := "Salad", Cooked := false }], nextID := 2 }
    { Method := "GET", Path := "/stats", Body := "" } (by decide) (by decide)).2.1

/-! ## The item route: prefix and numerals -/

theorem TrimPrefix_append (pre seg : String) : TrimPrefix (pre ++ seg) pre = seg := by
  have hpre : HasPrefix (pre ++ seg) pre = true := by
    simp [HasPrefix, String.toList]
  simp only [TrimPrefix, hpre, if_true]
  show String.mk (List.drop pre.data.length (pre ++ seg).data) = seg
  rw [String.data_append, List.drop_left]

theorem foldl_digits_ge (ds : List Char) (n : Nat) :
    n ≤ ds.foldl (fun n c => n * 10 + (c.toNat - 48)) n := by
  induction ds generalizing n with
  | nil => exact Nat.le_refl n
  | cons c cs ih =>
    simp only [List.foldl_cons]
    exact Nat.le_trans (by omega) (ih _)

theorem parseDigits_all (ds : List Char) (n : Nat) (hn : n < 2 ^ 64)
    (h : ds.all Char.isDigit = true) :
    parseDigits ds n =
      if ds.foldl (fun n c => n * 10 + (c.toNat - 48)) n < 2 ^ 64 then
        Except.ok (ds.foldl (fun n c => n * 10 + (c.toNat - 48)) n)
      else Except.error AtoiError.ErrRange := by
  induction ds generalizing n with
  | nil => simp only [parseDigits, List.foldl_nil, hn, if_true]
  | cons c cs ih =>
    simp only [List.all_cons, Bool.and_eq_true] at h
    simp only [parseDigits, h.1, Bool.true_eq_false, if_false, List.foldl_cons]
    by_cases hov : 2 ^ 64 ≤ n * 10 + (c.toNat - 48)
    · have hge := foldl_digits_ge cs (n * 10 + (c.toNat - 48))
      rw [if_pos hov, if_neg (by omega)]
    · rw [if_neg hov]
      exact ih _ (by omega) h.2

theorem parseDigits_not_all (ds : List Char) (n : Nat) (h : ds.all Char.isDigit = false) :
    ∃ e, parseDigits ds n = Except.error e := by
  induction ds generalizing n with
  | nil => simp at h
  | cons c cs ih =>
    by_cases hc : c.isDigit = true
    · have hcs : cs.all Char.isDigit = false := by
        simpa [List.all_cons, hc] using h
      simp only [parseDigits, hc, Bool.true_eq_false, if_false]
      by_cases hov : 2 ^ 64 ≤ n * 10 + (c.toNat - 48)
      · exact ⟨AtoiError.ErrRange, by rw [if_pos hov]⟩
      · rw [if_neg hov]
        exact ih _ hcs
    · have hc2 : c.isDigit = false := by simpa using hc
      exact ⟨AtoiError.ErrSyntax, by simp only [parseDigits, hc2, if_true]⟩

theorem Atoi_not_numeral (s : String) (h : isNumeral s = false) : (Atoi s).2 ≠ none := by
  unfold isNumeral at h
  unfold Atoi
  cases hl : s.toList with
  | nil => simp
  | cons c cs =>
    rw [hl] at h
    simp only [unsigned] at h
    simp only []
    generalize (if c = '+' ∨ c = '-' then cs else c :: cs) = ds at h ⊢
    cases he : ds.isEmpty with
    | true => simp
    | false =>
      rw [he] at h
      simp only [Bool.not_false, Bool.true_and] at h
      obtain ⟨e, hpe⟩ := parseDigits_not_all ds 0 h
      simp only [Bool.false_eq_true, if_false, hpe]
      cases e with
      | ErrSyntax => simp
      | ErrRange =>
        by_cases hneg : c = '-'
        · simp [hneg]
        · simp [hneg]

theorem Atoi_numeral (s : String) (h : isNumeral s = true) :
    (minInt ≤ numeralValue s → numeralValue s ≤ maxInt → Atoi s = (numeralValue s, none)) ∧
      (numeralValue s < minInt ∨ maxInt < numeralValue s →
        (Atoi s).2 = some AtoiError.ErrRange) := by
  unfold isNumeral at h
  unfold Atoi numeralValue
  cases hl : s.toList with
  | nil => rw [hl] at h; simp [unsigned] at h
  | cons c cs =>
    rw [hl] at h
    simp only [unsigned, Bool.and_eq_true, Bool.not_eq_true'] at h ⊢
    obtain ⟨hne, hall⟩ := h
    simp only [digitsValue]
    generalize (if c = '+' ∨ c = '-' then cs else c :: cs) = ds at hne hall ⊢
    simp only [hne, Bool.false_eq_true, if_false,
      parseDigits_all ds 0 (by decide) hall, List.head?_cons, Option.some.injEq]
    generalize List.foldl (fun n c => n * 10 + (c.toNat - 48)) 0 ds = v
    unfold minInt maxInt
    by_cases hv : v < 2 ^ 64
    · rw [if_pos hv]
      simp only []
      by_cases hneg : c = '-'
      · have hd : decide (c = '-') = true := by simp [hneg]
        rw [if_pos hneg, hd, if_neg (by simp)]
        constructor
        · intro hlo _
          rw [if_neg (by intro hc; have := hc.2; omega), if_pos rfl]
        · intro hor
          rw [if_pos ⟨rfl, by omega⟩]
      · have hd : decide (c = '-') = false := by simp [hneg]
        rw [if_neg hneg, hd]
        constructor
        · intro _ hhi
          rw [if_neg (by intro hc; have := hc.2; omega), if_neg (by simp), if_neg (by simp)]
        · intro hor
          rw [if_pos ⟨rfl, by omega⟩]
    · rw [if_neg hv]
      simp only []
      by_cases hneg : c = '-'
      · have hd : decide (c = '-') = true := by simp [hneg]
        rw [if_pos hneg, hd, if_pos rfl]
        exact ⟨fun hlo _ => by omega, fun _ => rfl⟩
      · have hd : decide (c = '-') = false := by simp [hneg]
        rw [if_neg hneg, hd, if_neg (by simp)]
        exact ⟨fun _ hhi => by omega, fun _ => rfl⟩

/-! ## Method check and the item handler -/

/-- C11: each of the four handlers answers a request whose method is not its
allowed one (`GET` for list, item and stats; `POST` for add) with status 405
and the error value `method not allowed`, whatever the path, the body and the
decoder, and leaves the store as it is; run against a store that records its
calls, no call is recorded. -/
theorem wrong_method_is_405 {σ : Type} (decode : Decoder) (h : Handler σ) (s : σ)
    (log : Slice Call) (r q : Request) (hget : r.Method ≠ MethodGet)
    (hpost : q.Method ≠ MethodPost) :
    (h.listHandler s r =
        ({ contentType := "application/json", status := 405,
           data := Data.error { Error := "method not allowed" } }, s) ∧
      h.itemHandler s r =
        ({ contentType := "application/json", status := 405,
           data := Data.error { Error := "method not allowed" } }, s) ∧
      h.statsHandler s r =
        ({ contentType := "application/json", status := 405,
           data := Data.error { Error := "method not allowed" } }, s) ∧
      h.addHandler decode s q =
        ({ contentType := "application/json", status := 405,
           data := Data.error { Error := "method not allowed" } }, s)) ∧
      ((Handler.mk h.store.recording).listHandler (s, log) r).2 = (s, log) ∧
      ((Handler.mk h.store.recording).itemHandler (s, log) r).2 = (s, log) ∧
      ((Handler.mk h.store.recording).statsHandler (s, log) r).2 = (s, log) ∧
      ((Handler.mk h.store.recording).addHandler decode (s, log) q).2 = (s, log) := by
  refine ⟨⟨?_, ?_, ?_, ?_⟩, ?_, ?_, ?_, ?_⟩
  · simp only [Handler.listHandler, hget, if_true, ne_eq, not_false_eq_true]; rfl
  · simp only [Handler.itemHandler, hget, if_true, ne_eq, not_false_eq_true]; rfl
  · simp only [Handler.statsHandler, hget, if_true, ne_eq, not_false_eq_true]; rfl
  · simp only [Handler.addHandler, hpost, if_true, ne_eq, not_false_eq_true]; rfl
  · simp only [Handler.listHandler, hget, if_true, ne_eq, not_false_eq_true]
  · simp only [Handler.itemHandler, hget, if_true, ne_eq, not_false_eq_true]
  · simp only [Handler.statsHandler, hget, if_true, ne_eq, not_false_eq_true]
  · simp only [Handler.addHandler, hpost, if_true, ne_eq, not_false_eq_true]

theorem wrong_method_is_405_witness :
    (Handler.mk MemoryStore.store).itemHandler
        { recipes := [{ ID := 1, Name := "Soup", Cooked := true }], nextID := 1 }
        { Method := "POST", Path := "/item/1", Body := "" } =
      ({ contentType := "application/json", status := 405,
         data := Data.error { Error := "method not allowed" } },
       { recipes := [{ ID := 1, Name := "Soup", Cooked := true }], nextID := 1 }) :=
  (wrong_method_is_405 jsonDecode (Handler.mk MemoryStore.store)
    { recipes := [{ ID := 1, Name := "Soup", Cooked := true }], nextID := 1 } []
    { Method := "POST", Path := "/item/1", Body := "" }
    { Method := "GET", Path := "/add", Body := "" } (by decide) (by decide)).1.2.1

/-- C12: on a `GET` request for the path `/item/` followed by a segment that is
not an optionally signed decimal numeral (such as `abc`, the empty string,
`1/2` or `1.5`), the item handler answers with status 400 and the error value
`invalid id`, and the store is unchanged; run against a store that records its
calls, no call is recorded: `Get` is not called. -/
theorem itemHandler_invalid_id {σ : Type} (h : Handler σ) (s : σ) (log : Slice Call)
    (r : Request) (seg : String) (hm : r.Method = MethodGet) (hp : r.Path = "/item/" ++ seg)
    (hseg : isNumeral seg = false) :
    h.itemHandler s r =
        ({ contentType := "application/json", status := 400,
           data := Data.error { Error := "invalid id" } }, s) ∧
      (Handler.mk h.store.recording).itemHandler (s, log) r =
        ({ contentType := "application/json", status := 400,
           data := Data.error { Error := "invalid id" } }, (s, log)) := by
  have hne : ¬ r.Method ≠ MethodGet := fun hn => hn hm
  have hat : (Atoi (TrimPrefix r.Path "/item/")).2 ≠ none := by
    rw [hp, TrimPrefix_append]
    exact Atoi_not_numeral seg hseg
  constructor
  · simp only [Handler.itemHandler, hne, if_false]
    rw [if_pos hat]
    rfl
  · simp only [Handler.itemHandler, hne, if_false]
    rw [if_pos hat]
    rfl

theorem itemHandler_invalid_id_witness :
    ((Handler.mk MemoryStore.store).itemHandler MemoryStore.empty
        { Method := "GET", Path := "/item/" ++ "abc", Body := "" }).1.status = 400 ∧
      ((Handler.mk MemoryStore.store).itemHandler MemoryStore.empty
        { Method := "GET", Path := "/item/" ++ "", Body := "" }).1.status = 400 ∧
      ((Handler.mk MemoryStore.store).itemHandler MemoryStore.empty
        { Method := "GET", Path := "/item/" ++ "1/2", Body := "" }).1.status = 400 ∧
      ((Handler.mk MemoryStore.store).itemHandler MemoryStore.empty
        { Method := "GET", Path := "/item/" ++ "1.5", Body := "" }).1.status = 400 :=
  ⟨congrArg (fun p => p.1.status)
      (itemHandler_invalid_id (Handler.mk MemoryStore.store) MemoryStore.empty []
        { Method := "GET", Path := "/item/" ++ "abc", Body := "" } "abc" rfl rfl (by decide)).1,
   congrArg (fun p => p.1.status)
      (itemHandler_invalid_id (Handler.mk MemoryStore.store) MemoryStore.empty []
        { Method := "GET", Path := "/item/" ++ "", Body := "" } "" rfl rfl (by decide)).1,
   congrArg (fun p => p.1.status)
      (itemHandler_invalid_id (Handler.mk MemoryStore.store) MemoryStore.empty []
        { Method := "GET", Path := "/item/" ++ "1/2", Body := "" } "1/2" rfl rfl (by decide)).1,
   congrArg (fun p => p.1.status)
      (itemHandler_invalid_id (Handler.mk MemoryStore.store) MemoryStore.empty []
        { Method := "GET", Path := "/item/" ++ "1.5", Body := "" } "1.5" rfl rfl (by decide)).1⟩

/-- C13, as stated, fails: the segment `9223372036854775808` is a decimal
numeral and the empty store holds no record with that id, yet the item handler
answers 400 `invalid id`, not 404, because the value does not fit an `int`. -/
theorem itemHandler_large_numeral_is_400 :
    isNumeral "9223372036854775808" = true ∧
      (∀ x ∈ MemoryStore.empty.recipes, x.ID ≠ numeralValue "9223372036854775808") ∧
      (Handler.mk MemoryStore.store).itemHandler MemoryStore.empty
          { Method := "GET", Path := "/item/9223372036854775808", Body := "" } =
        ({ contentType := "application/json", status := 400,
           data := Data.error { Error := "invalid id" } }, MemoryStore.empty) := by
  refine ⟨by decide, ?_, by decide⟩
  intro x hx
  simp [MemoryStore.empty] at hx

/-- C13, amended: on a `GET` request for the path `/item/` followed by an
optionally signed decimal numeral `seg`, if the value of `seg` fits an `int`
the item handler asks the store for that id and answers 200 with the record the
store returned when it is found and 404 `not found` when it is not (with a
`MemoryStore`: 200 with a stored record of that id if there is one, 404 if
there is none, the store unchanged either way); if the value does not fit an
`int` the answer is 400 `invalid id`. -/
theorem itemHandler_numeral {σ : Type} (h : Handler σ) (s : σ) (m : MemoryStore)
    (r : Request) (seg : String) (hm : r.Method = MethodGet) (hp : r.Path = "/item/" ++ seg)
    (hseg : isNumeral seg = true) :
    (minInt ≤ numeralValue seg → numeralValue seg ≤ maxInt →
      ((h.store.Get s (numeralValue seg)).1.2 = true →
        h.itemHandler s r =
          ({ contentType := "application/json", status := 200,
             data := Data.recipe (h.store.Get s (numeralValue seg)).1.1 },
           (h.store.Get s (numeralValue seg)).2)) ∧
      ((h.store.Get s (numeralValue seg)).1.2 = false →
        h.itemHandler s r =
          ({ contentType := "application/json", status := 404,
             data := Data.error { Error := "not found" } },
           (h.store.Get s (numeralValue seg)).2)) ∧
      ((∃ x ∈ m.recipes, x.ID = numeralValue seg) →
        ∃ x ∈ m.recipes, x.ID = numeralValue seg ∧
          (Handler.mk MemoryStore.store).itemHandler m r =
            ({ contentType := "application/json", status := 200, data := Data.recipe x }, m)) ∧
      ((∀ x ∈ m.recipes, x.ID ≠ numeralValue seg) →
        (Handler.mk MemoryStore.store).itemHandler m r =
          ({ contentType := "application/json", status := 404,
             data := Data.error { Error := "not found" } }, m))) ∧
    (numeralValue seg < minInt ∨ maxInt < numeralValue seg →
      h.itemHandler s r =
        ({ contentType := "application/json", status := 400,
           data := Data.error { Error := "invalid id" } }, s)) := by
  have hne : ¬ r.Method ≠ MethodGet := fun hn => hn hm
  have htrim : TrimPrefix r.Path "/item/" = seg := by rw [hp, TrimPrefix_append]
  have generic : ∀ {τ : Type} (g : Handler τ) (t : τ), minInt ≤ numeralValue seg →
      numeralValue seg ≤ maxInt →
      g.itemHandler t r =
        if (g.store.Get t (numeralValue seg)).1.2 = false then
          (sendError "not found" StatusNotFound, (g.store.Get t (numeralValue seg)).2)
        else
          (sendJSON StatusOK (Data.recipe (g.store.Get t (numeralValue seg)).1.1),
            (g.store.Get t (numeralValue seg)).2) := by
    intro τ g t hlo hhi
    have hat := (Atoi_numeral seg hseg).1 hlo hhi
    simp only [Handler.itemHandler, hne, if_false, htrim, hat, ne_eq, not_true_eq_false]
  constructor
  · intro hlo hhi
    refine ⟨?_, ?_, ?_, ?_⟩
    · intro hf
      rw [generic h s hlo hhi, if_neg (by rw [hf]; exact Bool.noConfusion)]
      rfl
    · intro hf
      rw [generic h s hlo hhi, if_pos hf]
      rfl
    · intro hex
      have hf : (getLoop m.recipes (numeralValue seg)).2 = true :=
        (getLoop_found_iff _ _).2 hex
      refine ⟨(getLoop m.recipes (numeralValue seg)).1, (getLoop_found_ID _ _ hf).1,
        (getLoop_found_ID _ _ hf).2, ?_⟩
      rw [generic (Handler.mk MemoryStore.store) m hlo hhi,
        if_neg (by show ¬ (getLoop m.recipes (numeralValue seg)).2 = false
                   rw [hf]; exact Bool.noConfusion)]
      rfl
    · intro hall
      have hf : (getLoop m.recipes (numeralValue seg)).2 = false := by
        cases hg : (getLoop m.recipes (numeralValue seg)).2 with
        | false => rfl
        | true =>
          obtain ⟨x, hx, hid⟩ := (getLoop_found_iff _ _).1 hg
          exact absurd hid (hall x hx)
      rw [generic (Handler.mk MemoryStore.store) m hlo hhi,
        if_pos (by show (getLoop m.recipes (numeralValue seg)).2 = false; exact hf)]
      rfl
  · intro hor
    have hat := (Atoi_numeral seg hseg).2 hor
    simp only [Handler.itemHandler, hne, if_false, htrim, hat]
    rfl

theorem itemHandler_numeral_witness :
    (Handler.mk MemoryStore.store).itemHandler
        { recipes := [{ ID := 1, Name := "Soup", Cooked := false }], nextID := 1 }
        { Method := "GET", Path := "/item/" ++ "99", Body := "" } =
      ({ contentType := "application/json", status := 404,
         data := Data.error { Error := "not found" } },
       { recipes := [{ ID := 1, Name := "Soup", Cooked := false }], nextID := 1 }) :=
  ((itemHandler_numeral (Handler.mk MemoryStore.store) MemoryStore.empty
    { recipes := [{ ID := 1, Name := "Soup", Cooked := false }], nextID := 1 }
    { Method := "GET", Path := "/item/" ++ "99", Body := "" } "99" rfl rfl (by decide)).1
      (by decide) (by decide)).2.2.2 (by decide)

/-! ## Supplied identifiers and running totals -/

/-- C15: the identifier a caller supplies is ignored.  For every store state,
`Add` of a recipe returns the same record and leaves the same state whatever
the `ID` field of its argument; the add handler over a `MemoryStore` gives the
same answer and the same state whatever `ID` the decoder left in the decoded
recipe; and a body accepted with a non-empty `Name` is stored under the
incremented counter, not under the decoded `ID`. -/
theorem supplied_ID_is_ignored (s : MemoryStore) (r : Recipe) (i : Int) (decode : Decoder)
    (q : Request) :
    s.Add { ID := i, Name := r.Name, Cooked := r.Cooked } = s.Add r ∧
      (Handler.mk MemoryStore.store).addHandler
          (fun body => { recipe := { ID := i, Name := (decode body).recipe.Name,
                                     Cooked := (decode body).recipe.Cooked },
                         err := (decode body).err }) s q =
        (Handler.mk MemoryStore.store).addHandler decode s q ∧
      (q.Method = MethodPost → (decode q.Body).err = none →
        (decode q.Body).recipe.Name ≠ "" →
        ((Handler.mk MemoryStore.store).addHandler decode s q).1.data =
            Data.recipe { ID := wrapInt (s.nextID + 1), Name := (decode q.Body).recipe.Name,
                          Cooked := (decode q.Body).recipe.Cooked } ∧
          ((Handler.mk MemoryStore.store).addHandler decode s q).2.recipes =
            s.recipes ++ [{ ID := wrapInt (s.nextID + 1), Name := (decode q.Body).recipe.Name,
                            Cooked := (decode q.Body).recipe.Cooked }]) := by
  refine ⟨rfl, ?_, ?_⟩
  · simp only [Handler.addHandler]
    rfl
  · intro hm herr hname
    have hne : ¬ q.Method ≠ MethodPost := fun hn => hn hm
    have hok : ¬ ((decode q.Body).err ≠ none ∨ (decode q.Body).recipe.Name = "") := by
      rintro (h1 | h2)
      · exact h1 herr
      · exact hname h2
    constructor
    · simp only [Handler.addHandler, hne, if_false, hok]
      rfl
    · simp only [Handler.addHandler, hne, if_false, hok]
      rfl

theorem supplied_ID_is_ignored_witness :
    ((Handler.mk MemoryStore.store).addHandler jsonDecode MemoryStore.empty
        { Method := "POST", Path := "/add",
          Body := "\x7b\"id\":42,\"name\":\"Pasta\"\x7d" }).1.data =
      Data.recipe { ID := 1, Name := "Pasta", Cooked := false } :=
  ((supplied_ID_is_ignored MemoryStore.empty Recipe.zero 0 jsonDecode
    { Method := "POST", Path := "/add",
      Body := "\x7b\"id\":42,\"name\":\"Pasta\"\x7d" }).2.2
    (by decide) (by decide) (by decide)).1

theorem statsHandler_memory (s : MemoryStore) (q : Request) (hm : q.Method = MethodGet)
    (h : len s.recipes ≤ maxInt) :
    ((Handler.mk MemoryStore.store).statsHandler s q).1.data =
      Data.stats { Total := (s.recipes.length : Int),
                   Cooked := ((s.recipes.countP fun x => x.Cooked : Nat) : Int) } := by
  have hne : ¬ q.Method ≠ MethodGet := fun hn => hn hm
  have hc : countCooked s.recipes 0
      = ((s.recipes.countP fun x => x.Cooked : Nat) : Int) := by
    rw [countCooked_eq _ 0 (Int.le_refl 0) (by rw [Int.zero_add]; exact h), Int.zero_add]
  simp only [Handler.statsHandler, hne, if_false]
  show Data.stats { Total := len s.recipes, Cooked := countCooked s.recipes 0 } = _
  rw [hc]
  rfl

/-- C16: stats grow with `Add`.  If the stats handler reports `(t, c)` on a
`MemoryStore` state, then after `Add(r)` it reports `(t + 1, c + 1)` when
`r.Cooked` is true and `(t + 1, c)` otherwise; and in every state reached from
the empty store the reported pair satisfies `0 ≤ cooked ≤ total`.  The slices
are within the range of a slice length. -/
theorem stats_follow_Add (s : MemoryStore) (r : Recipe) (q : Request) (t c : Int)
    (cs : Slice Call) (hm : q.Method = MethodGet)
    (hlen : len (s.Add r).2.recipes ≤ maxInt)
    (hst : ((Handler.mk MemoryStore.store).statsHandler s q).1.data =
      Data.stats { Total := t, Cooked := c })
    (hreach : len (MemoryStore.empty.run cs).2.recipes ≤ maxInt) :
    ((Handler.mk MemoryStore.store).statsHandler (s.Add r).2 q).1.data =
        Data.stats { Total := t + 1, Cooked := if r.Cooked = true then c + 1 else c } ∧
      ∃ t2 c2 : Int,
        ((Handler.mk MemoryStore.store).statsHandler (MemoryStore.empty.run cs).2 q).1.data =
            Data.stats { Total := t2, Cooked := c2 } ∧
          0 ≤ c2 ∧ c2 ≤ t2 := by
  have hrec : (s.Add r).2.recipes
      = s.recipes ++ [{ ID := wrapInt (s.nextID + 1), Name := r.Name, Cooked := r.Cooked }] :=
    rfl
  have hlen0 : len s.recipes ≤ maxInt := by
    rw [hrec] at hlen
    simp only [len, List.length_append, List.length_singleton] at hlen ⊢
    omega
  rw [statsHandler_memory s q hm hlen0] at hst
  injection hst with hst
  injection hst with ht hc
  constructor
  · rw [statsHandler_memory _ q hm hlen, hrec, ← ht, ← hc]
    cases hr : r.Cooked with
    | false => simp [List.countP_append, List.countP_cons, hr]
    | true => simp [List.countP_append, List.countP_cons, hr]
  · refine ⟨_, _, statsHandler_memory _ q hm hreach, Int.natCast_nonneg _, ?_⟩
    exact Int.ofNat_le.2 (List.countP_le_length _)

theorem stats_follow_Add_witness :
    ((Handler.mk MemoryStore.store).statsHandler
        (({ recipes := [{ ID := 1, Name := "Soup", Cooked := true }], nextID := 1 } :
          MemoryStore).Add { ID := 0, Name := "Salad", Cooked := false }).2
        { Method := "GET", Path := "/stats", Body := "" }).1.data =
      Data.stats { Total := 1 + 1, Cooked := 1 } :=
  (stats_follow_Add { recipes := [{ ID := 1, Name := "Soup", Cooked := true }], nextID := 1 }
    { ID := 0, Name := "Salad", Cooked := false }
    { Method := "GET", Path := "/stats", Body := "" } 1 1
    [Call.Add { ID := 0, Name := "Tea", Cooked := false }]
    (by decide) (by decide) (by decide) (by decide)).1

/-! ## The add handler and the JSON decoder -/

theorem keyMatches_id_not_name (k : String) (h : keyMatches k "id" = true) :
    keyMatches k "name" = false := by
  unfold keyMatches at h ⊢
  simp only [decide_eq_true_eq] at h
  rw [h]
  decide

theorem keyMatches_id_not_cooked (k : String) (h : keyMatches k "id" = true) :
    keyMatches k "cooked" = false := by
  unfold keyMatches at h ⊢
  simp only [decide_eq_true_eq] at h
  rw [h]
  decide

theorem keyMatches_name_not_cooked (k : String) (h : keyMatches k "name" = true) :
    keyMatches k "cooked" = false := by
  unfold keyMatches at h ⊢
  simp only [decide_eq_true_eq] at h
  rw [h]
  decide

theorem Atoi_ok_iff (t : String) :
    (Atoi t).2 = none ↔
      (isNumeral t && decide (minInt ≤ numeralValue t ∧ numeralValue t ≤ maxInt)) = true := by
  cases hnum : isNumeral t with
  | false =>
    simp only [Bool.false_and, Bool.false_eq_true, iff_false]
    exact Atoi_not_numeral t hnum
  | true =>
    simp only [Bool.true_and, decide_eq_true_eq]
    constructor
    · intro hok
      by_contra hout
      have hor : numeralValue t < minInt ∨ maxInt < numeralValue t := by omega
      rw [(Atoi_numeral t hnum).2 hor] at hok
      exact Option.noConfusion hok
    · rintro ⟨hlo, hhi⟩
      rw [(Atoi_numeral t hnum).1 hlo hhi]

theorem saveError_ne_none (saved : Option DecodeError) (e : DecodeError) :
    saveError saved e ≠ none := by
  cases saved <;> simp [saveError]

theorem storeMember_fits (p : Recipe × Option DecodeError) (m : Member) (h : m.fits = true) :
    (storeMember p m).2 = p.2 ∧
      (storeMember p m).1.Name = (nameGiven m).getD p.1.Name ∧
      (storeMember p m).1.Cooked = (cookedGiven m).getD p.1.Cooked := by
  unfold Member.fits at h
  unfold storeMember nameGiven cookedGiven
  by_cases hid : keyMatches m.key "id" = true
  · rw [if_pos hid] at h
    simp only [hid, if_true, keyMatches_id_not_name _ hid, keyMatches_id_not_cooked _ hid,
      Bool.false_eq_true, if_false, Option.getD_none]
    cases hv : m.value with
    | number text =>
      rw [hv] at h
      simp only [] at h
      simp only [if_pos ((Atoi_ok_iff text).2 h), and_self]
    | null => simp
    | bool b => rw [hv] at h; simp at h
    | string str => rw [hv] at h; simp at h
    | array => rw [hv] at h; simp at h
    | object => rw [hv] at h; simp at h
  · rw [if_neg hid] at h
    rw [if_neg hid]
    by_cases hname : keyMatches m.key "name" = true
    · rw [if_pos hname] at h
      simp only [hname, if_true, keyMatches_name_not_cooked _ hname, Bool.false_eq_true,
        if_false, Option.getD_none]
      cases hv : m.value with
      | string str => simp
      | null => simp
      | bool b => rw [hv] at h; simp at h
      | number text => rw [hv] at h; simp at h
      | array => rw [hv] at h; simp at h
      | object => rw [hv] at h; simp at h
    · rw [if_neg hname] at h
      simp only [hname, if_false, Option.getD_none]
      by_cases hcooked : keyMatches m.key "cooked" = true
      · rw [if_pos hcooked] at h
        simp only [hcooked, if_true]
        cases hv : m.value with
        | bool b => simp
        | null => simp
        | string str => rw [hv] at h; simp at h
        | number text => rw [hv] at h; simp at h
        | array => rw [hv] at h; simp at h
        | object => rw [hv] at h; simp at h
      · simp only [hcooked, Bool.false_eq_true, if_false, Option.getD_none, and_self]

theorem storeMember_not_fits (p : Recipe × Option DecodeError) (m : Member)
    (h : m.fits = false) : (storeMember p m).2 ≠ none := by
  unfold Member.fits at h
  unfold storeMember
  by_cases hid : keyMatches m.key "id" = true
  · rw [if_pos hid] at h
    rw [if_pos hid]
    cases hv : m.value with
    | number text =>
      rw [hv] at h
      simp only [] at h
      have hbad : ¬ (Atoi text).2 = none := by
        intro hok
        rw [(Atoi_ok_iff text).1 hok] at h
        exact Bool.noConfusion h
      simp only [if_neg hbad]
      exact saveError_ne_none _ _
    | null => rw [hv] at h; simp at h
    | bool b => exact saveError_ne_none _ _
    | string str => exact saveError_ne_none _ _
    | array => exact saveError_ne_none _ _
    | object => exact saveError_ne_none _ _
  · rw [if_neg hid] at h
    rw [if_neg hid]
    by_cases hname : keyMatches m.key "name" = true
    · rw [if_pos hname] at h
      rw [if_pos hname]
      cases hv : m.value with
      | string str => rw [hv] at h; simp at h
      | null => rw [hv] at h; simp at h
      | bool b => exact saveError_ne_none _ _
      | number text => exact saveError_ne_none _ _
      | array => exact saveError_ne_none _ _
      | object => exact saveError_ne_none _ _
    · rw [if_neg hname] at h
      rw [if_neg hname]
      by_cases hcooked : keyMatches m.key "cooked" = true
      · rw [if_pos hcooked] at h
        rw [if_pos hcooked]
        cases hv : m.value with
        | bool b => rw [hv] at h; simp at h
        | null => rw [hv] at h; simp at h
        | string str => exact saveError_ne_none _ _
        | number text => exact saveError_ne_none _ _
        | array => exact saveError_ne_none _ _
        | object => exact saveError_ne_none _ _
      · rw [if_neg hcooked] at h
        exact Bool.noConfusion h

theorem storeMember_error (p : Recipe × Option DecodeError) (m : Member) :
    (storeMember p m).2 = p.2 ∨
      (storeMember p m).2 = saveError p.2 DecodeError.UnmarshalTypeError := by
  unfold storeMember
  by_cases hid : keyMatches m.key "id" = true
  · rw [if_pos hid]
    cases m.value with
    | number text =>
      by_cases hok : (Atoi text).2 = none
      · exact Or.inl (by simp only [if_pos hok])
      · exact Or.inr (by simp only [if_neg hok])
    | null => exact Or.inl rfl
    | bool b => exact Or.inr rfl
    | string str => exact Or.inr rfl
    | array => exact Or.inr rfl
    | object => exact Or.inr rfl
  · rw [if_neg hid]
    by_cases hname : keyMatches m.key "name" = true
    · rw [if_pos hname]
      cases m.value with
      | string str => exact Or.inl rfl
      | null => exact Or.inl rfl
      | bool b => exact Or.inr rfl
      | number text => exact Or.inr rfl
      | array => exact Or.inr rfl
      | object => exact Or.inr rfl
    · rw [if_neg hname]
      by_cases hcooked : keyMatches m.key "cooked" = true
      · rw [if_pos hcooked]
        cases m.value with
        | bool b => exact Or.inl rfl
        | null => exact Or.inl rfl
        | string str => exact Or.inr rfl
        | number text => exact Or.inr rfl
        | array => exact Or.inr rfl
        | object => exact Or.inr rfl
      · rw [if_neg hcooked]
        exact Or.inl rfl

theorem storeMember_keeps_error (p : Recipe × Option DecodeError) (m : Member)
    (h : p.2 ≠ none) : (storeMember p m).2 ≠ none := by
  rcases storeMember_error p m with he | he
  · rw [he]
    exact h
  · rw [he]
    exact saveError_ne_none _ _

theorem foldl_storeMember_keeps_error (ms : List Member) (p : Recipe × Option DecodeError)
    (h : p.2 ≠ none) : (ms.foldl storeMember p).2 ≠ none := by
  induction ms generalizing p with
  | nil => exact h
  | cons m ms ih => exact ih _ (storeMember_keeps_error p m h)

theorem foldl_storeMember_not_fits (ms : List Member) (p : Recipe × Option DecodeError)
    (h : ∃ m ∈ ms, m.fits = false) : (ms.foldl storeMember p).2 ≠ none := by
  induction ms generalizing p with
  | nil =>
    obtain ⟨m, hm, _⟩ := h
    simp at hm
  | cons a ms ih =>
    obtain ⟨m, hm, hfit⟩ := h
    simp only [List.foldl_cons]
    rcases List.mem_cons.1 hm with rfl | hin
    · exact foldl_storeMember_keeps_error ms _ (storeMember_not_fits p m hfit)
    · exact ih _ ⟨m, hin, hfit⟩

theorem foldl_storeMember_fits (ms : List Member) (p : Recipe × Option DecodeError)
    (h : ∀ m ∈ ms, m.fits = true) :
    (ms.foldl storeMember p).2 = p.2 ∧
      (ms.foldl storeMember p).1.Name = ((ms.filterMap nameGiven).getLast?).getD p.1.Name ∧
      (ms.foldl storeMember p).1.Cooked =
        ((ms.filterMap cookedGiven).getLast?).getD p.1.Cooked := by
  induction ms generalizing p with
  | nil => simp
  | cons a ms ih =>
    obtain ⟨he, hn, hc⟩ := storeMember_fits p a (h a (List.mem_cons_self _ _))
    obtain ⟨ihe, ihn, ihc⟩ := ih (storeMember p a) (fun m hm => h m (List.mem_cons_of_mem _ hm))
    simp only [List.foldl_cons]
    refine ⟨by rw [ihe, he], ?_, ?_⟩
    · rw [ihn, hn, List.filterMap_cons]
      cases nameGiven a with
      | none => simp
      | some v => simp [List.getLast?_cons]
    · rw [ihc, hc, List.filterMap_cons]
      cases cookedGiven a with
      | none => simp
      | some v => simp [List.getLast?_cons]

theorem jsonDecode_of_firstValue (body : String) (v : Value) (ms : List Member)
    (h : firstValue body = Except.ok (v, ms)) :
    jsonDecode body =
      { recipe := (unmarshal v ms).1, err := (unmarshal v ms).2.map DecodeError.text } := by
  unfold jsonDecode
  rw [h]

theorem jsonDecode_rejects (body : String)
    (hbad : (∃ e, firstValue body = Except.error e) ∨
      (∃ v ms, firstValue body = Except.ok (v, ms) ∧
        (v ≠ Value.object ∨ (∃ m ∈ ms, m.fits = false) ∨ suppliedName ms = ""))) :
    (jsonDecode body).err ≠ none ∨ (jsonDecode body).recipe.Name = "" := by
  rcases hbad with ⟨e, he⟩ | ⟨v, ms, hv, hbad⟩
  · left
    unfold jsonDecode
    rw [he]
    exact Option.noConfusion
  · rw [jsonDecode_of_firstValue body v ms hv]
    cases v with
    | null => exact Or.inr rfl
    | bool b => exact Or.inl Option.noConfusion
    | number text => exact Or.inl Option.noConfusion
    | string str => exact Or.inl Option.noConfusion
    | array => exact Or.inl Option.noConfusion
    | object =>
      by_cases hfit : ∃ m ∈ ms, m.fits = false
      · left
        have herr := foldl_storeMember_not_fits ms (Recipe.zero, none) hfit
        show Option.map DecodeError.text (ms.foldl storeMember (Recipe.zero, none)).2 ≠ none
        cases hf : (ms.foldl storeMember (Recipe.zero, none)).2 with
        | none => exact absurd hf herr
        | some e => exact Option.noConfusion
      · have hall : ∀ m ∈ ms, m.fits = true := by
          intro m hm
          cases hfm : m.fits with
          | true => rfl
          | false => exact absurd ⟨m, hm, hfm⟩ hfit
        rcases hbad with hno | hex | hname
        · exact absurd rfl hno
        · exact absurd hex hfit
        · right
          show (ms.foldl storeMember (Recipe.zero, none)).1.Name = ""
          rw [(foldl_storeMember_fits ms (Recipe.zero, none) hall).2.1]
          exact hname

theorem jsonDecode_accepts (body : String) (ms : List Member)
    (hfirst : firstValue body = Except.ok (Value.object, ms))
    (hfit : ∀ x ∈ ms, x.fits = true) :
    (jsonDecode body).err = none ∧ (jsonDecode body).recipe.Name = suppliedName ms ∧
      (jsonDecode body).recipe.Cooked = suppliedCooked ms := by
  rw [jsonDecode_of_firstValue body Value.object ms hfirst]
  obtain ⟨he, hn, hc⟩ := foldl_storeMember_fits ms (Recipe.zero, none) hfit
  refine ⟨?_, hn, hc⟩
  show Option.map DecodeError.text (ms.foldl storeMember (Recipe.zero, none)).2 = none
  rw [he]
  rfl

/-- C9, as stated, fails: the body `{"name":"Pasta"}xyz` is not a
well-formed JSON document, yet the add handler answers 200 with the stored
record and calls `Add`: the decoder reads the first JSON value of the body and
does not look at what follows it. -/
theorem addHandler_ignores_trailing_data :
    isJSONDocument "\x7b\"name\":\"Pasta\"\x7dxyz" = false ∧
      (Handler.mk MemoryStore.store.recording).addHandler jsonDecode (MemoryStore.empty, [])
          { Method := "POST", Path := "/add", Body := "\x7b\"name\":\"Pasta\"\x7dxyz" } =
        ({ contentType := "application/json", status := 200,
           data := Data.recipe { ID := 1, Name := "Pasta", Cooked := false } },
         ({ recipes := [{ ID := 1, Name := "Pasta", Cooked := false }], nextID := 1 },
          [Call.Add { ID := 0, Name := "Pasta", Cooked := false }])) := by
  decide

/-- C9, amended: on a `POST` request whose body does not begin with a complete
JSON value (white space before it allowed), or whose first JSON value is not
an object, or is an object with a member named `id`, `name` or `cooked` whose
value is neither `null` nor of the type of the field, or supplies no name or
an empty one, the add handler answers with status 400 and the error value
`invalid input`, and the store is unchanged; run against a store that records
its calls, no call is recorded: `Add` is not called. -/
theorem addHandler_rejects {σ : Type} (h : Handler σ) (s : σ) (log : Slice Call)
    (r : Request) (hm : r.Method = MethodPost)
    (hbad : (∃ e, firstValue r.Body = Except.error e) ∨
      (∃ v ms, firstValue r.Body = Except.ok (v, ms) ∧
        (v ≠ Value.object ∨ (∃ m ∈ ms, m.fits = false) ∨ suppliedName ms = ""))) :
    h.addHandler jsonDecode s r =
        ({ contentType := "application/json", status := 400,
           data := Data.error { Error := "invalid input" } }, s) ∧
      (Handler.mk h.store.recording).addHandler jsonDecode (s, log) r =
        ({ contentType := "application/json", status := 400,
           data := Data.error { Error := "invalid input" } }, (s, log)) := by
  have hne : ¬ r.Method ≠ MethodPost := fun hn => hn hm
  have hrej := jsonDecode_rejects r.Body hbad
  constructor
  · simp only [Handler.addHandler, hne, if_false, hrej, if_true]
    rfl
  · simp only [Handler.addHandler, hne, if_false, hrej, if_true]
    rfl

theorem addHandler_rejects_witness :
    ((Handler.mk MemoryStore.store).addHandler jsonDecode MemoryStore.empty
        { Method := "POST", Path := "/add", Body := "\x7b\"name\":\"\"\x7d" } =
      ({ contentType := "application/json", status := 400,
         data := Data.error { Error := "invalid input" } }, MemoryStore.empty)) ∧
    ((Handler.mk MemoryStore.store).addHandler jsonDecode MemoryStore.empty
        { Method := "POST", Path := "/add", Body := "\x7b\"name\":\"Pasta\"" } =
      ({ contentType := "application/json", status := 400,
         data := Data.error { Error := "invalid input" } }, MemoryStore.empty)) ∧
    ((Handler.mk MemoryStore.store).addHandler jsonDecode MemoryStore.empty
        { Method := "POST", Path := "/add", Body := "\x7b\"id\":\"x\",\"name\":\"Pasta\"\x7d" } =
      ({ contentType := "application/json", status := 400,
         data := Data.error { Error := "invalid input" } }, MemoryStore.empty)) :=
  ⟨(addHandler_rejects (Handler.mk MemoryStore.store) MemoryStore.empty []
      { Method := "POST", Path := "/add", Body := "\x7b\"name\":\"\"\x7d" } rfl
      (Or.inr ⟨Value.object, [{ key := "name", value := Value.string "" }], rfl,
        Or.inr (Or.inr (by decide))⟩)).1,
   (addHandler_rejects (Handler.mk MemoryStore.store) MemoryStore.empty []
      { Method := "POST", Path := "/add", Body := "\x7b\"name\":\"Pasta\"" } rfl
      (Or.inl ⟨DecodeError.ErrUnexpectedEOF, rfl⟩)).1,
   (addHandler_rejects (Handler.mk MemoryStore.store) MemoryStore.empty []
      { Method := "POST", Path := "/add", Body := "\x7b\"id\":\"x\",\"name\":\"Pasta\"\x7d" } rfl
      (Or.inr ⟨Value.object,
        [{ key := "id", value := Value.string "x" },
         { key := "name", value := Value.string "Pasta" }], rfl,
        Or.inr (Or.inl ⟨{ key := "id", value := Value.string "x" }, by decide, by decide⟩)⟩)).1⟩

/-- C10, as stated, fails: the body `{"id":"x","name":"Pasta"}` is a JSON
object with a non-empty string `name` and no `cooked`, yet the add handler
answers 400 `invalid input` and does not call `Add`, because the string `"x"`
cannot be stored in the `int` field `ID`. -/
theorem addHandler_rejects_mistyped_id :
    isJSONDocument "\x7b\"id\":\"x\",\"name\":\"Pasta\"\x7d" = true ∧
      firstValue "\x7b\"id\":\"x\",\"name\":\"Pasta\"\x7d" =
        Except.ok (Value.object,
          [{ key := "id", value := Value.string "x" },
           { key := "name", value := Value.string "Pasta" }]) ∧
      (Handler.mk MemoryStore.store.recording).addHandler jsonDecode (MemoryStore.empty, [])
          { Method := "POST", Path := "/add", Body := "\x7b\"id\":\"x\",\"name\":\"Pasta\"\x7d" } =
        ({ contentType := "application/json", status := 400,
           data := Data.error { Error := "invalid input" } }, (MemoryStore.empty, [])) := by
  refine ⟨by decide, rfl, by decide⟩

/-- C10, amended: on a `POST` request whose body begins with a JSON object in
which every member named `id`, `name` or `cooked` (letter case ignored) has a
value of the type of the field (an integer that fits an `int`, a string, a
boolean) or `null`, and which supplies a non-empty name, the add handler calls
the store's `Add` exactly once, with the decoded recipe, and answers with
status 200 and the record `Add` returned.  With a `MemoryStore` that record
has the supplied name (the last string given for `name`), the supplied flag
(the last boolean given for `cooked`, `false` when there is none) and the
incremented counter as `ID`; on the empty store the `ID` is 1. -/
theorem addHandler_accepts {σ : Type} (h : Handler σ) (s : σ) (log : Slice Call)
    (m : MemoryStore) (r : Request) (ms : List Member) (hm : r.Method = MethodPost)
    (hfirst : firstValue r.Body = Except.ok (Value.object, ms))
    (hfit : ∀ x ∈ ms, x.fits = true) (hname : suppliedName ms ≠ "") :
    (Handler.mk h.store.recording).addHandler jsonDecode (s, log) r =
        ({ contentType := "application/json", status := 200,
           data := Data.recipe (h.store.Add s (jsonDecode r.Body).recipe).1 },
         ((h.store.Add s (jsonDecode r.Body).recipe).2,
          log ++ [Call.Add (jsonDecode r.Body).recipe])) ∧
      (jsonDecode r.Body).recipe.Name = suppliedName ms ∧
      (jsonDecode r.Body).recipe.Cooked = suppliedCooked ms ∧
      (Handler.mk MemoryStore.store).addHandler jsonDecode m r =
        ({ contentType := "application/json", status := 200,
           data := Data.recipe { ID := wrapInt (m.nextID + 1), Name := suppliedName ms,
                                 Cooked := suppliedCooked ms } },
         { recipes := m.recipes ++ [{ ID := wrapInt (m.nextID + 1), Name := suppliedName ms,
                                      Cooked := suppliedCooked ms }],
           nextID := wrapInt (m.nextID + 1) }) ∧
      ((Handler.mk MemoryStore.store).addHandler jsonDecode MemoryStore.empty r).1.data =
        Data.recipe { ID := 1, Name := suppliedName ms, Cooked := suppliedCooked ms } := by
  have hne : ¬ r.Method ≠ MethodPost := fun hn => hn hm
  obtain ⟨herr, hn, hc⟩ := jsonDecode_accepts r.Body ms hfirst hfit
  have hok : ¬ ((jsonDecode r.Body).err ≠ none ∨ (jsonDecode r.Body).recipe.Name = "") := by
    rintro (h1 | h2)
    · exact h1 herr
    · exact hname (hn ▸ h2)
  refine ⟨?_, hn, hc, ?_, ?_⟩
  · simp only [Handler.addHandler, hne, if_false, hok]
    rfl
  · simp only [Handler.addHandler, hne, if_false, hok]
    rw [← hn, ← hc]
    rfl
  · simp only [Handler.addHandler, hne, if_false, hok]
    rw [← hn, ← hc]
    rfl

theorem addHandler_accepts_witness :
    ((Handler.mk MemoryStore.store).addHandler jsonDecode MemoryStore.empty
        { Method := "POST", Path := "/add", Body := "\x7b\"name\":\"Pasta\"\x7d" } =
      ({ contentType := "application/json", status := 200,
         data := Data.recipe { ID := 1, Name := "Pasta", Cooked := false } },
       { recipes := [{ ID := 1, Name := "Pasta", Cooked := false }], nextID := 1 })) ∧
    ((Handler.mk MemoryStore.store).addHandler jsonDecode
        { recipes := [{ ID := 1, Name := "Pasta", Cooked := false }], nextID := 1 }
        { Method := "POST", Path := "/add", Body := "\x7b\"name\":\"Soup\",\"cooked\":true\x7d" } =
      ({ contentType := "application/json", status := 200,
         data := Data.recipe { ID := 2, Name := "Soup", Cooked := true } },
       { recipes := [{ ID := 1, Name := "Pasta", Cooked := false },
                     { ID := 2, Name := "Soup", Cooked := true }], nextID := 2 })) :=
  ⟨(addHandler_accepts (Handler.mk MemoryStore.store) MemoryStore.empty [] MemoryStore.empty
      { Method := "POST", Path := "/add", Body := "\x7b\"name\":\"Pasta\"\x7d" }
      [{ key := "name", value := Value.string "Pasta" }] rfl rfl (by decide) (by decide)).2.2.2.1,
   (addHandler_accepts (Handler.mk MemoryStore.store) MemoryStore.empty []
      { recipes := [{ ID := 1, Name := "Pasta", Cooked := false }], nextID := 1 }
      { Method := "POST", Path := "/add", Body := "\x7b\"name\":\"Soup\",\"cooked\":true\x7d" }
      [{ key := "name", value := Value.string "Soup" },
       { key := "cooked", value := Value.bool true }] rfl rfl (by decide) (by decide)).2.2.2.1⟩

end JsonApi
